import Mathlib

set_option maxHeartbeats 1000000
set_option linter.unusedVariables false
set_option linter.unnecessarySeqFocus false

/-! # Verification of the email phishing analyzer

Shallow embedding of `backend/app/services/analyzer.py`.  Python `str`
values are modelled as `List Char`, Python float arithmetic as exact
rational arithmetic over `ℚ`, and fallible operations as `Option` or
`Except`.  The regular-expression scans of the source are implemented as
explicit left-to-right scanning functions that follow the semantics of
`re.sub` / `re.findall` on the concrete patterns appearing in the source.
-/

/-- Python whitespace, as matched by the regex class `\s` in the source
patterns (ASCII fragment: space, tab, newline, carriage return, vertical
tab, form feed). -/
def pyIsSpace (c : Char) : Bool :=
  c = ' ' || c = '\t' || c = '\n' || c = '\r' || c = '\x0b' || c = '\x0c'

/-- One-character ASCII lower-casing, modelling Python `str.lower` on the
character range the source logic depends on (codepoints 65-90 map down by
32, everything else is unchanged). -/
def lowerChar (c : Char) : Char :=
  if 65 ≤ c.toNat ∧ c.toNat ≤ 90 then Char.ofNat (c.toNat + 32) else c

/-- Python `str.lower` over a whole string. -/
def lowerL (l : List Char) : List Char := l.map lowerChar

/-- Python substring containment, `needle in hay` on `str` values. -/
def containsSub (hay needle : List Char) : Bool :=
  if needle.isPrefixOf hay then true
  else
    match hay with
    | [] => false
    | _ :: t => containsSub t needle

theorem length_dropWhile_le (p : Char → Bool) (l : List Char) :
    (l.dropWhile p).length ≤ l.length := by
  induction l with
  | nil => simp
  | cons c t ih => by_cases h : p c <;> simp [List.dropWhile, h] <;> omega

/-- Scan of `re.sub(r"<[^>]+>", " ", text)` from `_strip_html`: each leftmost
match runs from a `<` to the first `>` after it, provided at least one
non-`>` character lies between them, and is replaced by one space; at a
position with no match the scanner keeps the character and moves on. -/
def stripAux : List Char → List Char
  | [] => []
  | c :: rest =>
    if c = '<' then
      if rest.takeWhile (fun d => d != '>') = [] then c :: stripAux rest
      else if rest.dropWhile (fun d => d != '>') = [] then c :: stripAux rest
      else ' ' :: stripAux ((rest.dropWhile (fun d => d != '>')).tail)
    else c :: stripAux rest
termination_by l => l.length
decreasing_by
  · simp only [List.length_cons]; omega
  · simp only [List.length_cons]; omega
  · rename_i hmem
    have h1 := length_dropWhile_le (fun d => d != '>') t
    rcases h3 : t.dropWhile (fun d => d != '>') with _ | ⟨g, after⟩
    · exact absurd h3 hmem
    · rw [h3] at h1
      simp only [List.tail_cons, List.length_cons] at h1 ⊢
      omega
  · simp only [List.length_cons]; omega

/-- Source `_strip_html`: strip HTML tags from text. -/
def stripHtml (l : List Char) : List Char := stripAux l

/-- Scan of `re.sub(r"\s+", " ", text)`: each maximal whitespace run is
replaced by a single space. -/
def collapseAux : List Char → List Char
  | [] => []
  | c :: t =>
    if pyIsSpace c then ' ' :: collapseAux (t.dropWhile pyIsSpace)
    else c :: collapseAux t
termination_by l => l.length
decreasing_by
  · have h1 := length_dropWhile_le pyIsSpace t
    simp only [List.length_cons]
    omega
  · simp only [List.length_cons]; omega

/-- Python `str.strip()`: drop leading and trailing whitespace. -/
def pyStrip (l : List Char) : List Char :=
  ((l.dropWhile pyIsSpace).reverse.dropWhile pyIsSpace).reverse

/-- Source `_normalize_text`: strip tags, collapse whitespace, trim, and
lower-case, in that order. -/
def normalizeText (l : List Char) : List Char :=
  lowerL (pyStrip (collapseAux (stripHtml l)))

/-- No match of `<[^>]+>` remains: at every occurrence of `<`, either the
very next character is `>` or no `>` occurs anywhere later. -/
def noTagB : List Char → Bool
  | [] => true
  | c :: t =>
    (if c = '<' then decide (t.head? = some '>') || !(decide ('>' ∈ t)) else true)
      && noTagB t

/-- Existence of a substring of the shape matched by `<[^>]+>`: a `<`, then
one or more non-`>` characters, then `>`. -/
def hasTagShape (l : List Char) : Prop :=
  ∃ a mid b, l = a ++ '<' :: (mid ++ '>' :: b) ∧ mid ≠ [] ∧ '>' ∉ mid

/-- Every whitespace character is a plain space and no two whitespace
characters are adjacent. -/
def collapsedB : List Char → Bool
  | [] => true
  | c :: t =>
    (!(pyIsSpace c) || (c == ' '))
      && (match t.head? with
          | some d => !(pyIsSpace c && pyIsSpace d)
          | none => true)
      && collapsedB t

/-- Neither the first nor the last character is whitespace. -/
def trimmedB (l : List Char) : Bool :=
  (match l.head? with | some c => !(pyIsSpace c) | none => true)
    && (match l.getLast? with | some c => !(pyIsSpace c) | none => true)

theorem char_eq_iff_toNat (a b : Char) : a = b ↔ a.toNat = b.toNat := by
  constructor
  · intro h; rw [h]
  · intro h
    have h1 := Char.ofNat_toNat a
    have h2 := Char.ofNat_toNat b
    rw [← h1, ← h2, h]

theorem toNat_ofNat_valid (n : Nat) (h : n.isValidChar) : (Char.ofNat n).toNat = n := by
  simp [Char.ofNat, h, Char.ofNatAux, Char.toNat]
  rfl

theorem lowerChar_toNat_of_upper {c : Char} (h : 65 ≤ c.toNat ∧ c.toNat ≤ 90) :
    (lowerChar c).toNat = c.toNat + 32 := by
  unfold lowerChar
  rw [if_pos h]
  exact toNat_ofNat_valid _ (Or.inl (by omega))

theorem lowerChar_eq_self {c : Char} (h : ¬(65 ≤ c.toNat ∧ c.toNat ≤ 90)) :
    lowerChar c = c := by
  unfold lowerChar
  rw [if_neg h]

theorem lowerChar_not_upper (c : Char) : ¬(65 ≤ (lowerChar c).toNat ∧ (lowerChar c).toNat ≤ 90) := by
  by_cases h : 65 ≤ c.toNat ∧ c.toNat ≤ 90
  · rw [lowerChar_toNat_of_upper h]; omega
  · rw [lowerChar_eq_self h]; exact h

theorem lowerChar_idem (c : Char) : lowerChar (lowerChar c) = lowerChar c :=
  lowerChar_eq_self (lowerChar_not_upper c)

theorem lowerChar_eq_lt (c : Char) : lowerChar c = '<' ↔ c = '<' := by
  by_cases h : 65 ≤ c.toNat ∧ c.toNat ≤ 90
  · rw [char_eq_iff_toNat, char_eq_iff_toNat, lowerChar_toNat_of_upper h]
    show _ + 32 = 60 ↔ _ = 60
    omega
  · rw [lowerChar_eq_self h]

theorem lowerChar_eq_gt (c : Char) : lowerChar c = '>' ↔ c = '>' := by
  by_cases h : 65 ≤ c.toNat ∧ c.toNat ≤ 90
  · rw [char_eq_iff_toNat, char_eq_iff_toNat, lowerChar_toNat_of_upper h]
    show _ + 32 = 62 ↔ _ = 62
    omega
  · rw [lowerChar_eq_self h]

theorem toNat_space_char : (' ' : Char).toNat = 32 := rfl

theorem toNat_tab_char : ('\t' : Char).toNat = 9 := rfl

theorem toNat_lf_char : ('\n' : Char).toNat = 10 := rfl

theorem toNat_cr_char : ('\r' : Char).toNat = 13 := rfl

theorem toNat_vt_char : ('\x0b' : Char).toNat = 11 := rfl

theorem toNat_ff_char : ('\x0c' : Char).toNat = 12 := rfl

theorem pyIsSpace_lowerChar (c : Char) : pyIsSpace (lowerChar c) = pyIsSpace c := by
  by_cases h : 65 ≤ c.toNat ∧ c.toNat ≤ 90
  · have ht := lowerChar_toNat_of_upper h
    have h1 : pyIsSpace (lowerChar c) = false := by
      simp only [pyIsSpace, char_eq_iff_toNat, ht, toNat_space_char, toNat_tab_char,
        toNat_lf_char, toNat_cr_char, toNat_vt_char, toNat_ff_char,
        Bool.or_eq_false_iff, decide_eq_false_iff_not]
      omega
    have h2 : pyIsSpace c = false := by
      simp only [pyIsSpace, char_eq_iff_toNat, toNat_space_char, toNat_tab_char,
        toNat_lf_char, toNat_cr_char, toNat_vt_char, toNat_ff_char,
        Bool.or_eq_false_iff, decide_eq_false_iff_not]
      omega
    rw [h1, h2]
  · rw [lowerChar_eq_self h]

theorem dropWhile_head_not (p : Char → Bool) (l : List Char) :
    ∀ d t2, l.dropWhile p = d :: t2 → p d = false := by
  induction l with
  | nil => intro d t2 h; simp [List.dropWhile] at h
  | cons c t ih =>
    intro d t2 h
    by_cases hc : p c
    · rw [List.dropWhile_cons_of_pos hc] at h; exact ih d t2 h
    · rw [List.dropWhile_cons_of_neg hc] at h
      cases h
      simpa using hc

theorem stripAux_cons (c : Char) (rest : List Char) :
    stripAux (c :: rest) =
      if c = '<' then
        if rest.takeWhile (fun d => d != '>') = [] then c :: stripAux rest
        else if rest.dropWhile (fun d => d != '>') = [] then c :: stripAux rest
        else ' ' :: stripAux ((rest.dropWhile (fun d => d != '>')).tail)
      else c :: stripAux rest := by
  rw [stripAux.eq_def]


theorem mem_stripAux (l : List Char) : ∀ c ∈ stripAux l, c ∈ l ∨ c = ' ' := by
  induction l using stripAux.induct with
  | case1 => intro c h; simp [stripAux] at h
  | case2 rest htake ih =>
    intro d hd
    rw [stripAux_cons, if_pos rfl, if_pos htake] at hd
    rcases List.mem_cons.1 hd with h1 | h1
    · exact Or.inl (by simp [h1])
    · rcases ih d h1 with h2 | h2
      · exact Or.inl (List.mem_cons_of_mem _ h2)
      · exact Or.inr h2
  | case3 rest htake hdrop ih =>
    intro d hd
    rw [stripAux_cons, if_pos rfl, if_neg htake, if_pos hdrop] at hd
    rcases List.mem_cons.1 hd with h1 | h1
    · exact Or.inl (by simp [h1])
    · rcases ih d h1 with h2 | h2
      · exact Or.inl (List.mem_cons_of_mem _ h2)
      · exact Or.inr h2
  | case4 rest htake hdrop ih =>
    intro d hd
    rw [stripAux_cons, if_pos rfl, if_neg htake, if_neg hdrop] at hd
    rcases List.mem_cons.1 hd with h1 | h1
    · exact Or.inr h1
    · rcases ih d h1 with h2 | h2
      · refine Or.inl (List.mem_cons_of_mem _ ?_)
        have h3 : d ∈ rest.dropWhile (fun e => e != '>') := List.mem_of_mem_tail h2
        exact (List.dropWhile_sublist _).subset h3
      · exact Or.inr h2
  | case5 c rest hc ih =>
    intro d hd
    rw [stripAux_cons, if_neg hc] at hd
    rcases List.mem_cons.1 hd with h1 | h1
    · exact Or.inl (by simp [h1])
    · rcases ih d h1 with h2 | h2
      · exact Or.inl (List.mem_cons_of_mem _ h2)
      · exact Or.inr h2

theorem gt_mem_stripAux {l : List Char} (h : '>' ∈ stripAux l) : '>' ∈ l := by
  rcases mem_stripAux l '>' h with h1 | h1
  · exact h1
  · cases h1

theorem noTagB_cons (c : Char) (t : List Char) :
    noTagB (c :: t) =
      ((if c = '<' then decide (t.head? = some '>') || !(decide ('>' ∈ t)) else true)
        && noTagB t) := rfl

theorem noTag_stripAux (l : List Char) : noTagB (stripAux l) = true := by
  induction l using stripAux.induct with
  | case1 => simp [stripAux, noTagB]
  | case2 rest htake ih =>
    rw [stripAux_cons, if_pos rfl, if_pos htake, noTagB_cons, ih, Bool.and_true, if_pos rfl]
    rcases rest with _ | ⟨r, rt⟩
    · simp [stripAux]
    · rw [List.takeWhile_cons] at htake
      by_cases h3 : r = '>'
      · subst h3
        rw [stripAux_cons, if_neg (by decide)]
        simp
      · simp [h3] at htake
  | case3 rest htake hdrop ih =>
    rw [stripAux_cons, if_pos rfl, if_neg htake, if_pos hdrop, noTagB_cons, ih,
      Bool.and_true, if_pos rfl]
    rw [List.dropWhile_eq_nil_iff] at hdrop
    have h2 : ¬('>' ∈ stripAux rest) := by
      intro h3
      have h4 := hdrop _ (gt_mem_stripAux h3)
      simp at h4
    simp [h2]
  | case4 rest htake hdrop ih =>
    rw [stripAux_cons, if_pos rfl, if_neg htake, if_neg hdrop, noTagB_cons, ih, Bool.and_true]
    rw [if_neg (by decide)]
  | case5 c rest hc ih =>
    rw [stripAux_cons, if_neg hc, noTagB_cons, ih, Bool.and_true, if_neg hc]

theorem stripAux_id {l : List Char} (h : noTagB l = true) : stripAux l = l := by
  induction l using stripAux.induct with
  | case1 => simp [stripAux]
  | case2 rest htake ih =>
    rw [noTagB_cons, Bool.and_eq_true] at h
    rw [stripAux_cons, if_pos rfl, if_pos htake, ih h.2]
  | case3 rest htake hdrop ih =>
    rw [noTagB_cons, Bool.and_eq_true] at h
    rw [stripAux_cons, if_pos rfl, if_neg htake, if_pos hdrop, ih h.2]
  | case4 rest htake hdrop ih =>
    exfalso
    rw [noTagB_cons, Bool.and_eq_true, if_pos rfl] at h
    have h1 := h.1
    have hgt : '>' ∈ rest := by
      by_contra h4
      apply hdrop
      rw [List.dropWhile_eq_nil_iff]
      intro x hx
      simp only [bne_iff_ne, ne_eq]
      intro h5
      exact h4 (h5 ▸ hx)
    simp only [Bool.or_eq_true, decide_eq_true_iff, Bool.not_eq_eq_eq_not, Bool.not_true,
      decide_eq_false_iff_not] at h1
    rcases h1 with h1 | h1
    · rcases rest with _ | ⟨r, rt⟩
      · cases h1
      · simp at h1
        subst h1
        exact htake (by simp [List.takeWhile_cons])
    · exact h1 hgt
  | case5 c rest hc ih =>
    rw [noTagB_cons, Bool.and_eq_true] at h
    rw [stripAux_cons, if_neg hc, ih h.2]

theorem noTag_append_right {a b : List Char} (h : noTagB (a ++ b) = true) : noTagB b = true := by
  induction a with
  | nil => exact h
  | cons x a ih =>
    rw [List.cons_append, noTagB_cons, Bool.and_eq_true] at h
    exact ih h.2

theorem noTag_append_left {a b : List Char} (h : noTagB (a ++ b) = true) : noTagB a = true := by
  induction a with
  | nil => rfl
  | cons x a ih =>
    rw [List.cons_append, noTagB_cons, Bool.and_eq_true] at h
    rw [noTagB_cons, Bool.and_eq_true]
    refine ⟨?_, ih h.2⟩
    have h1 := h.1
    by_cases hx : x = '<'
    · rw [if_pos hx] at h1 ⊢
      simp only [Bool.or_eq_true, decide_eq_true_iff, Bool.not_eq_eq_eq_not, Bool.not_true,
        decide_eq_false_iff_not] at h1 ⊢
      rcases a with _ | ⟨y, a2⟩
      · right; simp
      · rcases h1 with h1 | h1
        · left; simpa using h1
        · right
          intro h2
          exact h1 (List.mem_append_left _ h2)
    · rw [if_neg hx]

theorem not_hasTagShape_of_noTag {l : List Char} (h : noTagB l = true) : ¬hasTagShape l := by
  induction l with
  | nil =>
    rintro ⟨a, mid, b, heq, hmid, hmem⟩
    simp at heq
  | cons c t ih =>
    rw [noTagB_cons, Bool.and_eq_true] at h
    rintro ⟨a, mid, b, heq, hmid, hmem⟩
    rcases a with _ | ⟨a1, a2⟩
    · rw [List.nil_append] at heq
      rw [List.cons.injEq] at heq
      obtain ⟨hc, ht⟩ := heq
      subst hc
      have h1 := h.1
      rw [if_pos rfl] at h1
      simp only [Bool.or_eq_true, decide_eq_true_iff, Bool.not_eq_eq_eq_not, Bool.not_true,
        decide_eq_false_iff_not] at h1
      rcases h1 with h1 | h1
      · rcases mid with _ | ⟨m, ms⟩
        · exact hmid rfl
        · rw [ht] at h1
          simp at h1
          subst h1
          exact hmem (List.mem_cons_self _ _)
      · apply h1
        rw [ht]
        exact List.mem_append_right _ (List.mem_cons_self _ _)
    · rw [List.cons_append, List.cons.injEq] at heq
      exact ih h.2 ⟨a2, mid, b, heq.2, hmid, hmem⟩

theorem collapseAux_cons_pos {c : Char} {t : List Char} (h : pyIsSpace c = true) :
    collapseAux (c :: t) = ' ' :: collapseAux (t.dropWhile pyIsSpace) := by
  rw [collapseAux.eq_def]
  simp [h]

theorem collapseAux_cons_neg {c : Char} {t : List Char} (h : pyIsSpace c = false) :
    collapseAux (c :: t) = c :: collapseAux t := by
  rw [collapseAux.eq_def]
  simp [h]

theorem mem_collapseAux (l : List Char) : ∀ c ∈ collapseAux l, c ∈ l ∨ c = ' ' := by
  induction l using collapseAux.induct with
  | case1 => intro c h; simp [collapseAux] at h
  | case2 c t hc ih =>
    intro d hd
    rw [collapseAux_cons_pos hc] at hd
    rcases List.mem_cons.1 hd with h1 | h1
    · exact Or.inr h1
    · rcases ih d h1 with h2 | h2
      · exact Or.inl (List.mem_cons_of_mem _ ((List.dropWhile_sublist _).subset h2))
      · exact Or.inr h2
  | case3 c t hc ih =>
    intro d hd
    rw [collapseAux_cons_neg (by simpa using hc)] at hd
    rcases List.mem_cons.1 hd with h1 | h1
    · exact Or.inl (by simp [h1])
    · rcases ih d h1 with h2 | h2
      · exact Or.inl (List.mem_cons_of_mem _ h2)
      · exact Or.inr h2

theorem noTag_collapseAux {l : List Char} (h : noTagB l = true) :
    noTagB (collapseAux l) = true := by
  induction l using collapseAux.induct with
  | case1 => simp [collapseAux, noTagB]
  | case2 c t hc ih =>
    rw [noTagB_cons, Bool.and_eq_true] at h
    have h2 : noTagB (t.dropWhile pyIsSpace) = true := by
      have h3 := List.takeWhile_append_dropWhile pyIsSpace t
      have h4 := h.2
      rw [← h3] at h4
      exact noTag_append_right h4
    rw [collapseAux_cons_pos hc, noTagB_cons, ih h2, Bool.and_true, if_neg (by decide)]
  | case3 c t hc ih =>
    rw [noTagB_cons, Bool.and_eq_true] at h
    rw [collapseAux_cons_neg (by simpa using hc), noTagB_cons, ih h.2, Bool.and_true]
    by_cases hlt : c = '<'
    · rw [if_pos hlt]
      rw [if_pos hlt] at h
      have h1 := h.1
      simp only [Bool.or_eq_true, decide_eq_true_iff, Bool.not_eq_eq_eq_not, Bool.not_true,
        decide_eq_false_iff_not] at h1 ⊢
      rcases h1 with h1 | h1
      · rcases t with _ | ⟨d, t2⟩
        · cases h1
        · simp at h1
          subst h1
          left
          rw [collapseAux_cons_neg (by decide)]
          simp
      · right
        intro h2
        rcases mem_collapseAux t '>' h2 with h3 | h3
        · exact h1 h3
        · cases h3
    · rw [if_neg hlt]

theorem collapsedB_cons (c : Char) (t : List Char) :
    collapsedB (c :: t) =
      ((!(pyIsSpace c) || (c == ' '))
        && (match t.head? with
            | some d => !(pyIsSpace c && pyIsSpace d)
            | none => true)
        && collapsedB t) := rfl

theorem head_collapseAux_not_space (z : List Char) :
    ∀ d t2, collapseAux (z.dropWhile pyIsSpace) = d :: t2 → pyIsSpace d = false := by
  intro d t2 h
  rcases hz : z.dropWhile pyIsSpace with _ | ⟨d0, t0⟩
  · rw [hz] at h
    simp [collapseAux] at h
  · have h0 : pyIsSpace d0 = false := dropWhile_head_not _ _ _ _ hz
    rw [hz, collapseAux_cons_neg h0, List.cons.injEq] at h
    rw [← h.1]
    exact h0

theorem collapseAux_nil : collapseAux [] = [] := by rw [collapseAux.eq_def]

theorem collapsed_collapseAux (l : List Char) : collapsedB (collapseAux l) = true := by
  induction l using collapseAux.induct with
  | case1 => rw [collapseAux_nil]; rfl
  | case2 c t hc ih =>
    rw [collapseAux_cons_pos hc, collapsedB_cons, ih, Bool.and_true]
    rcases hx : collapseAux (t.dropWhile pyIsSpace) with _ | ⟨d, t2⟩
    · rfl
    · have hd := head_collapseAux_not_space t d t2 hx
      simp [hd]
  | case3 c t hc ih =>
    have hcf : pyIsSpace c = false := by simpa using hc
    rw [collapseAux_cons_neg hcf, collapsedB_cons, ih, Bool.and_true, hcf]
    rcases collapseAux t with _ | ⟨d, t2⟩
    · rfl
    · simp

theorem collapseAux_id {l : List Char} (h : collapsedB l = true) : collapseAux l = l := by
  induction l with
  | nil => exact collapseAux_nil
  | cons c t ih =>
    rw [collapsedB_cons, Bool.and_eq_true, Bool.and_eq_true] at h
    obtain ⟨⟨h1, h2⟩, h3⟩ := h
    by_cases hc : pyIsSpace c
    · have hsp : c = ' ' := by
        rw [hc] at h1
        simpa using h1
      rw [collapseAux_cons_pos hc]
      have hdw : t.dropWhile pyIsSpace = t := by
        rcases t with _ | ⟨d, t2⟩
        · rfl
        · simp only [List.head?_cons] at h2
          rw [hc] at h2
          simp only [Bool.true_and] at h2
          have hdf : pyIsSpace d = false := by simpa using h2
          rw [List.dropWhile_cons_of_neg (by simp [hdf])]
      rw [hdw, ih h3, hsp]
    · rw [collapseAux_cons_neg (by simpa using hc), ih h3]

theorem collapsed_append_right {a b : List Char} (h : collapsedB (a ++ b) = true) :
    collapsedB b = true := by
  induction a with
  | nil => exact h
  | cons x a ih =>
    rw [List.cons_append, collapsedB_cons, Bool.and_eq_true, Bool.and_eq_true] at h
    exact ih h.2

theorem collapsed_append_left {a b : List Char} (h : collapsedB (a ++ b) = true) :
    collapsedB a = true := by
  induction a with
  | nil => rfl
  | cons x a ih =>
    rw [List.cons_append, collapsedB_cons, Bool.and_eq_true, Bool.and_eq_true] at h
    obtain ⟨⟨h1, h2⟩, h3⟩ := h
    rw [collapsedB_cons, Bool.and_eq_true, Bool.and_eq_true]
    refine ⟨⟨h1, ?_⟩, ih h3⟩
    rcases a with _ | ⟨y, a2⟩
    · rfl
    · rw [List.cons_append] at h2
      exact h2

theorem dropWhile_eq_pyStrip_append (l : List Char) :
    l.dropWhile pyIsSpace =
      pyStrip l ++ ((l.dropWhile pyIsSpace).reverse.takeWhile pyIsSpace).reverse := by
  unfold pyStrip
  conv_lhs => rw [← List.reverse_reverse (l.dropWhile pyIsSpace)]
  rw [← List.reverse_append]
  congr 1
  exact (List.takeWhile_append_dropWhile pyIsSpace ((l.dropWhile pyIsSpace).reverse)).symm

theorem noTag_pyStrip {l : List Char} (h : noTagB l = true) : noTagB (pyStrip l) = true := by
  have h1 : noTagB (l.dropWhile pyIsSpace) = true := by
    rw [← List.takeWhile_append_dropWhile pyIsSpace l] at h
    exact noTag_append_right h
  rw [dropWhile_eq_pyStrip_append l] at h1
  exact noTag_append_left h1

theorem collapsed_pyStrip {l : List Char} (h : collapsedB l = true) :
    collapsedB (pyStrip l) = true := by
  have h1 : collapsedB (l.dropWhile pyIsSpace) = true := by
    rw [← List.takeWhile_append_dropWhile pyIsSpace l] at h
    exact collapsed_append_right h
  rw [dropWhile_eq_pyStrip_append l] at h1
  exact collapsed_append_left h1

theorem trimmed_pyStrip (l : List Char) : trimmedB (pyStrip l) = true := by
  rcases hu : l.dropWhile pyIsSpace with _ | ⟨e, u2⟩
  · unfold pyStrip
    rw [hu]
    rfl
  · have he : pyIsSpace e = false := dropWhile_head_not _ _ _ _ hu
    rcases hv : (e :: u2).reverse.dropWhile pyIsSpace with _ | ⟨d, t⟩
    · unfold pyStrip
      rw [hu, hv]
      rfl
    · have hd : pyIsSpace d = false := dropWhile_head_not _ _ _ _ hv
      have h2 := List.takeWhile_append_dropWhile pyIsSpace (e :: u2).reverse
      rw [hv] at h2
      have h3 : (d :: t).getLast? = some e := by
        have h4 : (e :: u2).reverse.getLast? = some e := by
          rw [List.getLast?_reverse]
          rfl
        rw [← h2] at h4
        rwa [List.getLast?_append_of_ne_nil _ (by simp)] at h4
      unfold pyStrip trimmedB
      rw [hu, hv, List.head?_reverse, List.getLast?_reverse, h3]
      simp [hd, he]

theorem pyStrip_id {l : List Char} (h : trimmedB l = true) : pyStrip l = l := by
  unfold trimmedB at h
  rw [Bool.and_eq_true] at h
  obtain ⟨h1, h2⟩ := h
  have hdw : l.dropWhile pyIsSpace = l := by
    rcases l with _ | ⟨c, t⟩
    · rfl
    · simp only [List.head?_cons] at h1
      have hcf : pyIsSpace c = false := by simpa using h1
      rw [List.dropWhile_cons_of_neg (by simp [hcf])]
  unfold pyStrip
  rw [hdw]
  have hdw2 : l.reverse.dropWhile pyIsSpace = l.reverse := by
    rcases hr : l.reverse with _ | ⟨d, t⟩
    · rfl
    · have h4 : l.getLast? = some d := by
        rw [← List.head?_reverse, hr]
        rfl
      rw [h4] at h2
      have hdf : pyIsSpace d = false := by simpa using h2
      rw [List.dropWhile_cons_of_neg (by simp [hdf])]
  rw [hdw2, List.reverse_reverse]

theorem lowerChar_gt_self : lowerChar '>' = '>' := by decide

theorem noTag_lowerL {l : List Char} (h : noTagB l = true) : noTagB (lowerL l) = true := by
  induction l with
  | nil => rfl
  | cons c t ih =>
    rw [noTagB_cons, Bool.and_eq_true] at h
    unfold lowerL at ih ⊢
    rw [List.map_cons, noTagB_cons, Bool.and_eq_true]
    refine ⟨?_, ih h.2⟩
    by_cases hc : lowerChar c = '<'
    · rw [if_pos hc]
      have hc2 : c = '<' := (lowerChar_eq_lt c).1 hc
      rw [if_pos hc2] at h
      have h1 := h.1
      simp only [Bool.or_eq_true, decide_eq_true_iff, Bool.not_eq_eq_eq_not, Bool.not_true,
        decide_eq_false_iff_not] at h1 ⊢
      rcases h1 with h1 | h1
      · left
        rcases t with _ | ⟨d, t2⟩
        · cases h1
        · simp at h1
          subst h1
          rw [List.map_cons, List.head?_cons, lowerChar_gt_self]
      · right
        intro h2
        rw [List.mem_map] at h2
        obtain ⟨x, hx, hfx⟩ := h2
        have hx2 : x = '>' := (lowerChar_eq_gt x).1 hfx
        exact h1 (hx2 ▸ hx)
    · rw [if_neg hc]

theorem lowerChar_space_self : lowerChar ' ' = ' ' := by decide

theorem collapsed_lowerL {l : List Char} (h : collapsedB l = true) :
    collapsedB (lowerL l) = true := by
  induction l with
  | nil => rfl
  | cons c t ih =>
    rw [collapsedB_cons, Bool.and_eq_true, Bool.and_eq_true] at h
    obtain ⟨⟨h1, h2⟩, h3⟩ := h
    unfold lowerL at ih ⊢
    rw [List.map_cons, collapsedB_cons, Bool.and_eq_true, Bool.and_eq_true]
    refine ⟨⟨?_, ?_⟩, ih h3⟩
    · rw [pyIsSpace_lowerChar]
      by_cases hc : pyIsSpace c
      · have hsp : c = ' ' := by
          rw [hc] at h1
          simpa using h1
        rw [hsp, lowerChar_space_self]
        simp
      · simp [hc]
    · rcases t with _ | ⟨d, t2⟩
      · rfl
      · rw [List.map_cons, List.head?_cons]
        rw [List.head?_cons] at h2
        show (!(pyIsSpace (lowerChar c) && pyIsSpace (lowerChar d))) = true
        have h2b : (!(pyIsSpace c && pyIsSpace d)) = true := h2
        rw [pyIsSpace_lowerChar, pyIsSpace_lowerChar]
        exact h2b

theorem trimmed_lowerL {l : List Char} (h : trimmedB l = true) :
    trimmedB (lowerL l) = true := by
  unfold trimmedB at h ⊢
  rw [Bool.and_eq_true] at h
  obtain ⟨h1, h2⟩ := h
  rw [Bool.and_eq_true]
  constructor
  · unfold lowerL
    rw [List.head?_map]
    rcases hl : l.head? with _ | c
    · rfl
    · rw [hl] at h1
      show (!(pyIsSpace (lowerChar c))) = true
      rw [pyIsSpace_lowerChar]
      exact h1
  · unfold lowerL
    rw [List.getLast?_map]
    rcases hl : l.getLast? with _ | c
    · rfl
    · rw [hl] at h2
      show (!(pyIsSpace (lowerChar c))) = true
      rw [pyIsSpace_lowerChar]
      exact h2

theorem lowerL_idem (l : List Char) : lowerL (lowerL l) = lowerL l := by
  unfold lowerL
  rw [List.map_map]
  apply List.map_congr_left
  intro c hc
  exact lowerChar_idem c

theorem normalizeText_noTag (l : List Char) : noTagB (normalizeText l) = true :=
  noTag_lowerL (noTag_pyStrip (noTag_collapseAux (noTag_stripAux l)))

theorem normalizeText_collapsed (l : List Char) : collapsedB (normalizeText l) = true :=
  collapsed_lowerL (collapsed_pyStrip (collapsed_collapseAux (stripHtml l)))

theorem normalizeText_trimmed (l : List Char) : trimmedB (normalizeText l) = true :=
  trimmed_lowerL (trimmed_pyStrip (collapseAux (stripHtml l)))

theorem normalizeText_idem (l : List Char) :
    normalizeText (normalizeText l) = normalizeText l := by
  have hn := normalizeText_noTag l
  have hcl := normalizeText_collapsed l
  have htr := normalizeText_trimmed l
  have hstep : normalizeText (normalizeText l) = lowerL (normalizeText l) := by
    show lowerL (pyStrip (collapseAux (stripHtml (normalizeText l)))) = lowerL (normalizeText l)
    unfold stripHtml
    rw [stripAux_id hn, collapseAux_id hcl, pyStrip_id htr]
  rw [hstep]
  show lowerL (lowerL (pyStrip (collapseAux (stripHtml l)))) = normalizeText l
  rw [lowerL_idem]
  rfl

theorem mem_normalizeText_not_upper (l : List Char) :
    ∀ c ∈ normalizeText l, ¬(65 ≤ c.toNat ∧ c.toNat ≤ 90) := by
  intro c hc
  unfold normalizeText lowerL at hc
  rw [List.mem_map] at hc
  obtain ⟨x, hx, hfx⟩ := hc
  rw [← hfx]
  exact lowerChar_not_upper x

/-- The twenty suspicious phrases of the source constant `SUSPICIOUS_KEYWORDS`. -/
def SUSPICIOUS_KEYWORDS : List (List Char) :=
  ["verify your account".data, "update your password".data, "urgent action required".data,
   "suspended".data, "click here".data, "login now".data, "bank account".data,
   "invoice attached".data, "verify identity".data, "account locked".data,
   "security alert".data, "confirm your identity".data, "act now".data, "limited time".data,
   "expires soon".data, "click below".data, "verify now".data, "unusual activity".data,
   "verify payment".data, "update payment".data]

/-- The ten trust phrases of the source constant `TRUST_SIGNAL_KEYWORDS`. -/
def TRUST_SIGNAL_KEYWORDS : List (List Char) :=
  ["newsletter".data, "receipt".data, "schedule".data, "meeting".data, "thank you".data,
   "invoice number".data, "order confirmation".data, "shipping".data, "tracking".data,
   "delivery".data]

/-- The nine low-trust domain suffixes of the source constant `SUSPICIOUS_DOMAINS`. -/
def SUSPICIOUS_DOMAINS : List (List Char) :=
  [".tk".data, ".ml".data, ".ga".data, ".cf".data, ".gq".data, ".xyz".data, ".top".data,
   ".click".data, ".download".data]

/-- Source `_count_hits`: one hit per keyword that occurs as a substring. -/
def count_hits (text : List Char) (keywords : List (List Char)) : Nat :=
  keywords.countP (fun kw => containsSub text kw)

/-- Character class accepted after the scheme by the URL regex
`http[s]?://(?:[a-zA-Z]|[0-9]|[$-_@.&+]|[!*\\(\\),]|(?:%[0-9a-fA-F][0-9a-fA-F]))+`
of `_extract_urls`.  In a regex character class `[$-_@.&+]` is a range
running from `$` (codepoint 36) to `_` (codepoint 95) together with the
extra members; the `%hh` alternative is subsumed because `%` (37) is inside
the range, so one iteration of the group always consumes exactly one
character of this class. -/
def urlChar (c : Char) : Bool :=
  decide (97 ≤ c.toNat ∧ c.toNat ≤ 122) || decide (65 ≤ c.toNat ∧ c.toNat ≤ 90)
    || decide (48 ≤ c.toNat ∧ c.toNat ≤ 57) || decide (36 ≤ c.toNat ∧ c.toNat ≤ 95)
    || c = '!' || c = '*' || c = '\\' || c = '(' || c = ')' || c = ','

/-- One match attempt of the URL regex at the current position: the scheme
(`https://`, backtracking on `[s]?` to `http://`), then a maximal nonempty
run of `urlChar`. -/
def urlMatchAt (l : List Char) : Option (List Char × List Char) :=
  if ("https://".data).isPrefixOf l then
    if (l.drop 8).takeWhile urlChar = [] then none
    else some ("https://".data ++ (l.drop 8).takeWhile urlChar, (l.drop 8).dropWhile urlChar)
  else if ("http://".data).isPrefixOf l then
    if (l.drop 7).takeWhile urlChar = [] then none
    else some ("http://".data ++ (l.drop 7).takeWhile urlChar, (l.drop 7).dropWhile urlChar)
  else none

/-- Scan of `re.findall` for `_extract_urls`: non-overlapping matches left to
right; where no match starts the scanner advances one character.  The fuel
argument is bounded by the input length and at least one character is
consumed per step, so the top-level wrapper below never exhausts it. -/
def extractUrlsGo : Nat → List Char → List (List Char)
  | 0, _ => []
  | _ + 1, [] => []
  | fuel + 1, c :: t =>
    match urlMatchAt (c :: t) with
    | some (m, rest) => m :: extractUrlsGo fuel rest
    | none => extractUrlsGo fuel t

/-- Source `_extract_urls`: extract all URLs from text. -/
def extract_urls (l : List Char) : List (List Char) := extractUrlsGo l.length l

/-- Word character of the regex class `\w` (ASCII fragment), as used in
`@([\w\.-]+)` and in the `\b` boundaries of the urgency patterns. -/
def isWordChar (c : Char) : Bool :=
  decide (97 ≤ c.toNat ∧ c.toNat ≤ 122) || decide (65 ≤ c.toNat ∧ c.toNat ≤ 90)
    || decide (48 ≤ c.toNat ∧ c.toNat ≤ 57) || c = '_'

/-- Character class of `[\w\.-]` in `_extract_domain`. -/
def domainChar (c : Char) : Bool := isWordChar c || c = '.' || c = '-'

/-- Scan of `re.search(r"@([\w\.-]+)", s)` from `_extract_domain`: the first
`@` followed by at least one domain character; group 1 is the maximal run
after it; the empty string when no position matches. -/
def extractDomainGo : Nat → List Char → List Char
  | 0, _ => []
  | _ + 1, [] => []
  | fuel + 1, c :: t =>
    if c = '@' then
      let run := t.takeWhile domainChar
      if run = [] then extractDomainGo fuel t else run
    else extractDomainGo fuel t

/-- Source `_extract_domain`: extract domain from an email address. -/
def extract_domain (l : List Char) : List Char := extractDomainGo l.length l

/-- Source `_is_domain_suspicious`: the extracted domain, lower-cased,
contains one of the suspicious suffixes as a substring. -/
def is_domain_suspicious (addr : List Char) : Bool :=
  SUSPICIOUS_DOMAINS.any (fun d => containsSub (lowerL (extract_domain addr)) d)

/-- Boundary test for `\b` before a match, given the previous character. -/
def atWordBoundary (prev : Option Char) : Bool :=
  match prev with
  | some p => !(isWordChar p)
  | none => true

/-- Boundary test for `\b` after a match, given the remaining text. -/
def afterWordBoundary (l : List Char) : Bool :=
  match l with
  | [] => true
  | d :: _ => !(isWordChar d)

/-- Non-overlapping `re.findall` count of one word-boundary pattern
`\b<w>\b`: a match needs `w` as a prefix with boundaries on both sides; the
scan then continues after the match, otherwise one character on. -/
def countWordGo : Nat → List Char → Option Char → List Char → Nat
  | 0, _, _, _ => 0
  | _ + 1, _, _, [] => 0
  | fuel + 1, w, prev, c :: t =>
    if !w.isEmpty && w.isPrefixOf (c :: t) && atWordBoundary prev
        && afterWordBoundary ((c :: t).drop w.length) then
      1 + countWordGo fuel w w.getLast? ((c :: t).drop w.length)
    else countWordGo fuel w (some c) t

def countWordMatches (w text : List Char) : Nat := countWordGo text.length w none text

/-- The eight urgency patterns of `_count_urgency_words` (without the `\b`
delimiters, which `countWordMatches` supplies). -/
def URGENCY_PATTERNS : List (List Char) :=
  ["urgent".data, "immediate".data, "asap".data, "now".data, "expire".data, "limited".data,
   "act now".data, "verify now".data]

/-- Source `_count_urgency_words`: sum over the eight `\b…\b` patterns of
their match counts; `re.IGNORECASE` is modelled by lower-casing the text
(the patterns are lower-case ASCII). -/
def count_urgency_words (text : List Char) : Nat :=
  (URGENCY_PATTERNS.map (fun w => countWordMatches w (lowerL text))).sum

def isLowerAlpha (c : Char) : Bool := decide (97 ≤ c.toNat ∧ c.toNat ≤ 122)

def isUpperAlpha (c : Char) : Bool := decide (65 ≤ c.toNat ∧ c.toNat ≤ 90)

def isDigitChar (c : Char) : Bool := decide (48 ≤ c.toNat ∧ c.toNat ≤ 57)

/-- Count of `re.findall` matches of a run pattern `[class]{k,}`: the number
of maximal runs of class characters of length at least `k` (the greedy
quantifier consumes a whole run per match). -/
def countRunsGo : Nat → (Char → Bool) → Nat → List Char → Nat
  | 0, _, _, _ => 0
  | _ + 1, _, _, [] => 0
  | fuel + 1, p, k, c :: t =>
    if p c then
      (if k ≤ ((c :: t).takeWhile p).length then 1 else 0)
        + countRunsGo fuel p k ((c :: t).dropWhile p)
    else countRunsGo fuel p k t

def countRuns (p : Char → Bool) (k : Nat) (l : List Char) : Nat := countRunsGo l.length p k l

/-- Python `str.split()` word count: the number of maximal non-whitespace runs. -/
def countWordsGo : Nat → List Char → Nat
  | 0, _ => 0
  | _ + 1, [] => 0
  | fuel + 1, c :: t =>
    if pyIsSpace c then countWordsGo fuel t
    else 1 + countWordsGo fuel (t.dropWhile (fun d => !(pyIsSpace d)))

def countWords (l : List Char) : Nat := countWordsGo l.length l

/-- Source `_estimate_spelling_errors`: count the three unusual run patterns
(15+ lower-case letters, 5+ upper-case letters, 4+ digits), divide by the
word count (minimum divisor 1), scale by 0.1 and clamp to at most 1. -/
def estimate_spelling_errors (text : List Char) : ℚ :=
  let error_count :=
    countRuns isLowerAlpha 15 text + countRuns isUpperAlpha 5 text + countRuns isDigitChar 4 text
  min 1 ((error_count : ℚ) / (max 1 (countWords text) : ℚ) * (1 / 10))

/-- Count of `re.findall(r"<[^>]+>", body)` matches, the same scan as
`stripAux` but counting instead of replacing. -/
def countTagsGo : Nat → List Char → Nat
  | 0, _ => 0
  | _ + 1, [] => 0
  | fuel + 1, c :: rest =>
    if c = '<' then
      if rest.takeWhile (fun d => d != '>') = [] then countTagsGo fuel rest
      else if rest.dropWhile (fun d => d != '>') = [] then countTagsGo fuel rest
      else 1 + countTagsGo fuel ((rest.dropWhile (fun d => d != '>')).tail)
    else countTagsGo fuel rest

def countTags (l : List Char) : Nat := countTagsGo l.length l

mutual

/-- Python `email.message.Message` as the analyzer consumes it: ordered
header list (name, value pairs), the normalized result of
`get_content_type()`, the result of `get_content_charset()` (`None` when no
charset is declared; the method itself never raises), and the payload.  A
leaf payload stores the byte text produced by the transfer-encoding decode
of `get_payload(decode=True)`, which does not raise; the subsequent
charset `str` decode is the fallible step and is modelled separately by
`decodeBytes` below. -/
inductive Message where
  | mk : List (List Char × List Char) → List Char → Option (List Char) → MPayload → Message

/-- Payload of a message: a string (leaf) or a list of sub-messages
(multipart). -/
inductive MPayload where
  | raw : List Char → MPayload
  | parts : List Message → MPayload

end

def Message.headers : Message → List (List Char × List Char)
  | .mk h _ _ _ => h

def Message.contentType : Message → List Char
  | .mk _ ct _ _ => ct

/-- Result of Python `Message.get_content_charset()`: the declared charset
name, or `None`. -/
def Message.charset : Message → Option (List Char)
  | .mk _ _ cs _ => cs

def Message.payload : Message → MPayload
  | .mk _ _ _ p => p

/-- Python `Message.is_multipart()`: the payload is a list of sub-messages. -/
def Message.isMultipart : Message → Bool
  | .mk _ _ _ (.raw _) => false
  | .mk _ _ _ (.parts _) => true

/-- Python `Message.get_payload(decode=True)`: `None` for a multipart,
otherwise the transfer-decoded payload bytes (empty text models empty
bytes, which is falsy in the source's `if payload:` checks). -/
def Message.getPayloadDecode : Message → Option (List Char)
  | .mk _ _ _ (.raw s) => some s
  | .mk _ _ _ (.parts _) => none

/-- Python `Message.get_payload(0)`: the first sub-message of a multipart. -/
def Message.firstPart : Message → Option Message
  | .mk _ _ _ (.raw _) => none
  | .mk _ _ _ (.parts ps) => ps.head?

mutual

/-- Python `Message.walk()`: the message itself, then depth-first all
sub-messages in order. -/
def Message.walk : Message → List Message
  | .mk h ct cs (.raw s) => [.mk h ct cs (.raw s)]
  | .mk h ct cs (.parts ps) => .mk h ct cs (.parts ps) :: walkList ps

def walkList : List Message → List Message
  | [] => []
  | m :: ms => m.walk ++ walkList ms

end

/-- Python `Message.get(name)`: the value of the first header whose name
matches case-insensitively, if any. -/
def Message.getHeader (m : Message) (k : List Char) : Option (List Char) :=
  (m.headers.find? (fun p => lowerL p.1 == lowerL k)).map (fun p => p.2)

/-- Python `Message.get_all(name, [])`: the values of all matching headers. -/
def Message.getAll (m : Message) (k : List Char) : List (List Char) :=
  (m.headers.filter (fun p => lowerL p.1 == lowerL k)).map (fun p => p.2)

def joinLines : List (List Char) → List Char
  | [] => []
  | [x] => x
  | x :: y :: t => x ++ '\n' :: joinLines (y :: t)

/-- Source `_serialize_headers`: join every header as `Key: Value` lines. -/
def serialize_headers (m : Message) : List Char :=
  joinLines (m.headers.map (fun p => p.1 ++ ": ".data ++ p.2))

/-- Python builtin `LookupError`, raised by codec lookup when a declared
charset names no known codec — `errors="replace"` does not prevent it,
since the codec must be found before any byte is decoded. -/
inductive LookupError where
  | mk : LookupError

/-- Python `payload.decode(charsetName, errors="replace")`: raises
`LookupError` when `charsetName` is not a registered codec, and otherwise
returns a string without raising (with `errors="replace"` the byte decode
itself cannot fail; the decoded text is modelled as the stored byte text).
The codec registry is interpreter state, not repository code, so it is
passed in as the predicate `known`. -/
def decodeBytes (known : List Char → Bool) (charsetName s : List Char) :
    Except LookupError (List Char) :=
  if known charsetName then Except.ok s else Except.error LookupError.mk

/-- Result of `_extract_body`.  The function is annotated `-> str`, but its
final fall-through `return message.get_payload()` yields the sub-message
list itself when the message is multipart (Python's dynamic typing lets
this escape). -/
inductive BodyResult where
  | str : List Char → BodyResult
  | msgList : List Message → BodyResult

/-- The loop of `_extract_body`: at the first `text/plain` part of the walk
whose payload bytes are nonempty (`if payload:` skips empty payloads) the
loop returns `payload.decode(part.get_content_charset() or "utf-8",
errors="replace")` — which raises `LookupError` when that part declares an
unknown charset; `some (Except.error …)` models that raise, `none` means
the loop fell through. -/
def findPlainText (known : List Char → Bool) (ms : List Message) :
    Option (Except LookupError (List Char)) :=
  ms.findSome? (fun p =>
    if p.contentType = "text/plain".data then
      match p.getPayloadDecode with
      | some s =>
        if s ≠ [] then some (decodeBytes known (p.charset.getD "utf-8".data) s) else none
      | none => none
    else none)

/-- Same search restricted to `text/html`, used by `_extract_html_body`. -/
def findHtmlText (known : List Char → Bool) (ms : List Message) :
    Option (Except LookupError (List Char)) :=
  ms.findSome? (fun p =>
    if p.contentType = "text/html".data then
      match p.getPayloadDecode with
      | some s =>
        if s ≠ [] then some (decodeBytes known (p.charset.getD "utf-8".data) s) else none
      | none => none
    else none)

/-- Python value of `message.get_payload()` at the final fall-through of
`_extract_body`: the raw string for a leaf, the sub-message list for a
multipart. -/
def rawPayload (m : Message) : BodyResult :=
  match m.payload with
  | .raw s2 => BodyResult.str s2
  | .parts ps => BodyResult.msgList ps

/-- Source `_extract_body`.  Multipart: decode the first nonempty
`text/plain` payload of the walk (an unknown declared charset raises
`LookupError` there and the exception propagates); else decode the first
sub-part's nonempty payload; else fall through to
`get_payload(decode=True)` — `None` for a multipart — decoding it when
nonempty, and finally `return message.get_payload()`, the raw string for a
leaf or the sub-message list for a multipart.  (A multipart with no
sub-part would make Python's `get_payload(0)` raise `IndexError`; the
stdlib parser never produces one, and the model falls through there
instead.) -/
def extract_body (known : List Char → Bool) (m : Message) :
    Except LookupError BodyResult :=
  match (if m.isMultipart then findPlainText known m.walk else none) with
  | some (Except.error e) => Except.error e
  | some (Except.ok s) => Except.ok (BodyResult.str s)
  | none =>
    match
      (if m.isMultipart then
        match m.firstPart with
        | some fp =>
          match fp.getPayloadDecode with
          | some s =>
            if s ≠ [] then some (decodeBytes known (fp.charset.getD "utf-8".data) s)
            else none
          | none => none
        | none => none
      else none) with
    | some (Except.error e) => Except.error e
    | some (Except.ok s) => Except.ok (BodyResult.str s)
    | none =>
      match m.getPayloadDecode with
      | some s =>
        if s ≠ [] then
          match decodeBytes known (m.charset.getD "utf-8".data) s with
          | Except.error e => Except.error e
          | Except.ok t => Except.ok (BodyResult.str t)
        else Except.ok (rawPayload m)
      | none => Except.ok (rawPayload m)

/-- Source `_extract_html_body`: decode the first nonempty `text/html`
payload of the walk of a multipart (an unknown declared charset raises
`LookupError`); `None` otherwise. -/
def extract_html_body (known : List Char → Bool) (m : Message) :
    Except LookupError (Option (List Char)) :=
  if m.isMultipart then
    match findHtmlText known m.walk with
    | some (Except.error e) => Except.error e
    | some (Except.ok s) => Except.ok (some s)
    | none => Except.ok none
  else Except.ok none

/-- Decoded content of an RFC822 message, the `EmailContent` the source
builds in `analyze_eml_bytes` (its `body` carries the dynamically typed
result of `_extract_body`). -/
structure EmlContent where
  subject : Option (List Char)
  body : BodyResult
  raw_headers : Option (List Char)
  from_address : Option (List Char)
  reply_to : Option (List Char)
  to_addresses : List (List Char)
  html_body : Option (List Char)

/-- Body of `analyze_eml_bytes` after the parse: `_extract_body` first,
then `_extract_html_body` (so a raise in the former means the latter never
runs), then the headers; a `LookupError` from either decode propagates and
no content is built. -/
def content_of_message (known : List Char → Bool) (m : Message) :
    Except LookupError EmlContent :=
  match extract_body known m with
  | Except.error e => Except.error e
  | Except.ok b =>
    match extract_html_body known m with
    | Except.error e => Except.error e
    | Except.ok hb =>
      Except.ok
        { subject := m.getHeader "Subject".data
          body := b
          raw_headers := some (serialize_headers m)
          from_address := m.getHeader "From".data
          reply_to := m.getHeader "Reply-To".data
          to_addresses := m.getAll "To".data
          html_body := hb }

/-- Error named by the spec for a total parse failure of the binary decoder.
The stdlib parser `email.message_from_bytes` is outside this repository;
the decode path is therefore modelled over an arbitrary parse function with
this error type, and the repository code propagates its failure unchanged. -/
inductive MalformedMessageError where
  | mk : MalformedMessageError

/-- The two unhandled exception kinds of the binary decode path: a parse
failure of the byte sequence, or a `LookupError` from a charset decode on a
successfully parsed message. -/
inductive DecodeError where
  | malformed : MalformedMessageError → DecodeError
  | lookup : LookupError → DecodeError

/-- Decode step of `analyze_eml_bytes`: parse the bytes, and on success
build the `EmailContent` from the message; a parse failure propagates, and
so does a `LookupError` raised by a charset decode (the source has no
handler for either), so in both cases no analysis output can be produced. -/
def decode_eml (known : List Char → Bool)
    (parse : List Nat → Except MalformedMessageError Message)
    (data : List Nat) : Except DecodeError EmlContent :=
  match parse data with
  | .error e => .error (DecodeError.malformed e)
  | .ok m =>
    match content_of_message known m with
    | .error e => .error (DecodeError.lookup e)
    | .ok c => .ok c

/-- Scheme characters accepted before `:` by `urllib.parse.urlparse`
(approximated by word characters plus `+`, `.`, `-`). -/
def schemeChar (c : Char) : Bool := isWordChar c || c = '+' || c = '.' || c = '-'

def dropScheme (url : List Char) : List Char :=
  match url.drop (url.takeWhile schemeChar).length with
  | ':' :: rest => rest
  | _ => url

/-- Host of a URL per `urlparse(url).netloc`: present only when the text
after the scheme starts with `//`; then the run up to the next `/`, `?` or
`#`; empty otherwise.  `urlparse` accepts any string and never fails. -/
def netloc (url : List Char) : List Char :=
  let rest := dropScheme url
  if ("//".data).isPrefixOf rest then
    (rest.drop 2).takeWhile (fun c => !(c = '/' || c = '?' || c = '#'))
  else []

/-- Scan for `href=` (case-insensitively) inside the `[^>]+` attribute
region after `<a`: fails on reaching `>` or the end; the flag records that
at least one character separates `<a` from `href=` as `[^>]+` requires. -/
def findHrefGo : Nat → Bool → List Char → Option (List Char)
  | 0, _, _ => none
  | _ + 1, _, [] => none
  | fuel + 1, consumed, c :: t =>
    if consumed && (lowerL ((c :: t).take 5) == "href=".data) then some ((c :: t).drop 5)
    else if c = '>' then none
    else findHrefGo fuel true t

/-- Quoted href value: one of `"` or `'`, a nonempty run without either
quote character (the class `[^"\']+`), and a closing quote. -/
def anchorAfterHref : List Char → Option (List Char × List Char)
  | [] => none
  | q :: r2 =>
    if q = '"' || q = '\'' then
      let url := r2.takeWhile (fun d => !(d = '"' || d = '\''))
      if url = [] then none
      else
        match r2.drop url.length with
        | q2 :: r3 => if q2 = '"' || q2 = '\'' then some (url, r3) else none
        | [] => none
    else none

/-- Anchor text: the nonempty `[^<]+` run followed by `</a>`
(case-insensitively). -/
def anchorTextAt (r : List Char) : Option (List Char × List Char) :=
  let txt := r.takeWhile (fun d => d != '<')
  if txt = [] then none
  else if lowerL ((r.drop txt.length).take 4) == "</a>".data then
    some (txt, (r.drop txt.length).drop 4)
  else none

/-- One attempt of the anchor regex
`<a[^>]+href=["\']([^"\']+)["\'][^>]*>([^<]+)</a>` (IGNORECASE) at the
current position, returning the captured (href, text) and the remaining
input.  Where a tag carries several `href=` attributes this takes the
first; the regex engine's greedy backtracking would take the last — no
property below depends on that corner. -/
def anchorMatchAt : List Char → Option ((List Char × List Char) × List Char)
  | '<' :: c1 :: rest =>
    if lowerChar c1 = 'a' then
      match findHrefGo rest.length false rest with
      | some afterHref =>
        match anchorAfterHref afterHref with
        | some (url, r3) =>
          match r3.dropWhile (fun d => d != '>') with
          | _ :: r4 =>
            match anchorTextAt r4 with
            | some (txt, rest2) => some ((url, txt), rest2)
            | none => none
          | [] => none
        | none => none
      | none => none
    else none
  | _ => none

/-- Scan of `re.findall` for the anchor pattern. -/
def findAnchorsGo : Nat → List Char → List (List Char × List Char)
  | 0, _ => []
  | _ + 1, [] => []
  | fuel + 1, c :: t =>
    match anchorMatchAt (c :: t) with
    | some (ut, rest) => ut :: findAnchorsGo fuel rest
    | none => findAnchorsGo fuel t

def findAnchors (l : List Char) : List (List Char × List Char) := findAnchorsGo l.length l

/-- Source `_check_link_text_mismatch`: some anchor whose visible text
contains `http` while the href's lower-cased host is not a substring of
that text. -/
def check_link_text_mismatch (html_text : List Char) : Bool :=
  (findAnchors html_text).any (fun ut =>
    containsSub (lowerL ut.2) "http".data
      && !(containsSub (lowerL ut.2) (lowerL (netloc ut.1))))

/-- The `EmailContent` dataclass as the text path builds and the analysis
consumes it (body a plain string). -/
structure EmailContent where
  subject : Option (List Char)
  body : List Char
  raw_headers : Option (List Char)
  from_address : Option (List Char)
  reply_to : Option (List Char)
  to_addresses : Option (List (List Char))
  html_body : Option (List Char)

/-- The `EmailFeatures` dataclass.  The source fields `uppercase_ratio` and
`html_ratio` are embedded as `uppercase_frac` and `html_frac`. -/
structure EmailFeatures where
  suspicious_keyword_count : Nat
  trust_keyword_count : Nat
  url_count : Nat
  suspicious_domain_count : Nat
  exclamation_count : Nat
  question_count : Nat
  uppercase_frac : ℚ
  body_length : Nat
  subject_length : Nat
  has_html : Bool
  html_frac : ℚ
  link_text_mismatch : Bool
  from_domain_suspicious : Bool
  reply_to_different : Bool
  urgency_words : Nat
  spelling_errors_estimate : ℚ

/-- Source `_extract_features`.  The body and subject arguments are the
normalized texts of `_run_analysis`; the lowered headers argument of the
source is unused by its body and omitted. -/
def extract_features (content : EmailContent) (body subject : List Char) : EmailFeatures :=
  let original_body := content.body
  let urls := extract_urls original_body
  let sample := original_body.take 1000
  { suspicious_keyword_count := count_hits (body ++ ' ' :: subject) SUSPICIOUS_KEYWORDS
    trust_keyword_count := count_hits (body ++ ' ' :: subject) TRUST_SIGNAL_KEYWORDS
    url_count := urls.length
    suspicious_domain_count :=
      urls.countP (fun url => SUSPICIOUS_DOMAINS.any (fun d => containsSub (lowerL url) d))
    exclamation_count :=
      original_body.countP (fun c => c == '!') + (content.subject.getD []).countP (fun c => c == '!')
    question_count :=
      original_body.countP (fun c => c == '?') + (content.subject.getD []).countP (fun c => c == '?')
    uppercase_frac :=
      if sample ≠ [] then (sample.countP Char.isUpper : ℚ) / (sample.length : ℚ) else 0
    body_length := original_body.length
    subject_length := (content.subject.getD []).length
    has_html := content.html_body.isSome || containsSub (lowerL original_body) "<html".data
    html_frac :=
      if 0 < original_body.length then
        (countTags original_body : ℚ) / (max 1 original_body.length : ℚ)
      else 0
    link_text_mismatch := check_link_text_mismatch original_body
    from_domain_suspicious := is_domain_suspicious (content.from_address.getD [])
    reply_to_different :=
      match content.reply_to, content.from_address with
      | some r, some f => decide (extract_domain r ≠ extract_domain f)
      | _, _ => false
    urgency_words := count_urgency_words (body ++ ' ' :: subject)
    spelling_errors_estimate := estimate_spelling_errors body }

/-- Pre-clamp score of `_ml_like_score`: base 0.3, plus the weighted
saturating contributions in source order, minus the trust contribution
(the code subtracts `abs(-0.08)`). -/
def mlScoreRaw (f : EmailFeatures) : ℚ :=
  3 / 10
    + min 1 ((f.suspicious_keyword_count : ℚ) / 5) * (15 / 100)
    + min 1 ((f.url_count : ℚ) / 3) * (12 / 100)
    + min 1 ((f.suspicious_domain_count : ℚ) / 2) * (20 / 100)
    + min 1 ((f.exclamation_count : ℚ) / 5) * (5 / 100)
    + min 1 (f.uppercase_frac * 2) * (8 / 100)
    + min 1 (f.html_frac * 10) * (6 / 100)
    + (if f.link_text_mismatch then 15 / 100 else 0)
    + (if f.from_domain_suspicious then 12 / 100 else 0)
    + (if f.reply_to_different then 10 / 100 else 0)
    + min 1 ((f.urgency_words : ℚ) / 3) * (10 / 100)
    + min 1 f.spelling_errors_estimate * (5 / 100)
    - min 1 ((f.trust_keyword_count : ℚ) / 3) * (8 / 100)

/-- Final scalar score: the raw score clamped by `max(0.0, min(1.0, score))`. -/
def mlScore (f : EmailFeatures) : ℚ := max 0 (min 1 (mlScoreRaw f))

/-- Highlight strings of `_ml_like_score`, in source order, under the same
trigger conditions, with the counts interpolated. -/
def highlightsOf (f : EmailFeatures) : List String :=
  (if 0 < f.suspicious_keyword_count then
    ["تم اكتشاف " ++ toString f.suspicious_keyword_count ++ " كلمة/عبارة مشبوهة في الرسالة."]
   else [])
  ++ (if 0 < f.suspicious_domain_count then
    ["تم اكتشاف " ++ toString f.suspicious_domain_count ++ " رابط يحتوي على نطاق مشبوه."]
   else [])
  ++ (if 3 < f.url_count then
    ["الرسالة تحتوي على عدد كبير من الروابط (" ++ toString f.url_count ++ ")."]
   else [])
  ++ (if f.link_text_mismatch then ["تم اكتشاف عدم تطابق بين نص الرابط والرابط الفعلي."] else [])
  ++ (if f.from_domain_suspicious then ["نطاق المرسل مشبوه."] else [])
  ++ (if f.reply_to_different then ["عنوان الرد يختلف عن عنوان المرسل."] else [])
  ++ (if 2 < f.urgency_words then ["الرسالة تحتوي على كلمات إلحاح مفرطة."] else [])
  ++ (if 0 < f.trust_keyword_count then
    ["تم اكتشاف " ++ toString f.trust_keyword_count ++ " إشارة ثقة قد تشير إلى رسالة شرعية."]
   else [])

/-- The `AnalysisInsight` schema record (values in the source are ints). -/
structure AnalysisInsight where
  name : String
  value : Nat
  weight : ℚ
  description : String

/-- The six insight records of `_ml_like_score`, in source order. -/
def insightsOf (f : EmailFeatures) : List AnalysisInsight :=
  [{ name := "suspicious_keywords", value := f.suspicious_keyword_count,
     weight := min 1 ((f.suspicious_keyword_count : ℚ) * (2 / 10)),
     description := "عدد الكلمات المشبوهة المكتشفة" },
   { name := "url_count", value := f.url_count,
     weight := min 1 ((f.url_count : ℚ) * (15 / 100)),
     description := "عدد الروابط في الرسالة" },
   { name := "suspicious_domains", value := f.suspicious_domain_count,
     weight := min 1 ((f.suspicious_domain_count : ℚ) * (3 / 10)),
     description := "عدد الروابط بنطاقات مشبوهة" },
   { name := "link_mismatch", value := if f.link_text_mismatch then 1 else 0,
     weight := if f.link_text_mismatch then 15 / 100 else 0,
     description := "عدم تطابق بين نص الرابط والرابط الفعلي" },
   { name := "from_domain_suspicious", value := if f.from_domain_suspicious then 1 else 0,
     weight := if f.from_domain_suspicious then 12 / 100 else 0,
     description := "نطاق المرسل مشبوه" },
   { name := "trust_signals", value := f.trust_keyword_count,
     weight := min 1 ((f.trust_keyword_count : ℚ) * (15 / 100)),
     description := "إشارات الثقة المكتشفة" }]

/-- Full result of `_ml_like_score`: clamped score, highlights, insights. -/
def ml_like_score (f : EmailFeatures) : ℚ × List String × List AnalysisInsight :=
  (mlScore f, highlightsOf f, insightsOf f)

/-- The `AnalysisResponse` contract fields the analysis computes (metadata
is plain repackaging of the content fields and is omitted). -/
structure AnalysisResponse where
  verdict : String
  confidence : ℚ
  model_version : String
  highlights : List String
  insights : List AnalysisInsight

/-- Features as `_run_analysis` computes them from a content record. -/
def analysis_features (content : EmailContent) : EmailFeatures :=
  extract_features content (normalizeText content.body)
    (normalizeText (content.subject.getD []))

/-- Scalar score of an analysis run. -/
def analysis_score (content : EmailContent) : ℚ := mlScore (analysis_features content)

/-- Source `_run_analysis`: normalize, extract features, score, package. -/
def run_analysis (content : EmailContent) : AnalysisResponse :=
  let features := analysis_features content
  let score := mlScore features
  { verdict := if 1 / 2 ≤ score then "phishing" else "legitimate"
    confidence := |score - 1 / 2| * 2
    model_version := "0.1.0-ml"
    highlights := highlightsOf features
    insights := insightsOf features }

/-- The `EmailContent` built by `analyze_text`: sender, reply-to and
recipients are never set; the html body is the body itself when it contains
`<html` or `<body` case-insensitively. -/
def analyze_text_content (body : List Char) (subject : Option (List Char))
    (headers : Option (List Char)) : EmailContent :=
  { subject := subject
    body := body
    raw_headers := headers
    from_address := none
    reply_to := none
    to_addresses := none
    html_body :=
      if containsSub (lowerL body) "<html".data || containsSub (lowerL body) "<body".data
      then some body else none }

/-- Source `analyze_text`. -/
def analyze_text (body : List Char) (subject : Option (List Char))
    (headers : Option (List Char)) : AnalysisResponse :=
  run_analysis (analyze_text_content body subject headers)

/-- Score formula exactly as the spec writes it (one weighted sum on the
base 0.30), stated from the claim's words for comparison with the source's
sequential accumulation. -/
def specScoreFormula (f : EmailFeatures) : ℚ :=
  0.30 + min 1 ((f.suspicious_keyword_count : ℚ) / 5) * 0.15
    + min 1 ((f.url_count : ℚ) / 3) * 0.12
    + min 1 ((f.suspicious_domain_count : ℚ) / 2) * 0.20
    + min 1 ((f.exclamation_count : ℚ) / 5) * 0.05
    + min 1 (f.uppercase_frac * 2) * 0.08
    + min 1 (f.html_frac * 10) * 0.06
    + (if f.link_text_mismatch then (0.15 : ℚ) else 0)
    + (if f.from_domain_suspicious then (0.12 : ℚ) else 0)
    + (if f.reply_to_different then (0.10 : ℚ) else 0)
    + min 1 ((f.urgency_words : ℚ) / 3) * 0.10
    + min 1 f.spelling_errors_estimate * 0.05
    - min 1 ((f.trust_keyword_count : ℚ) / 3) * 0.08

/-- C1: for every EmailFeatures record, the scalar score of the scoring
engine equals the clamp to [0, 1] of the spec's single weighted sum
0.30 + min(1, kw/5)·0.15 + min(1, urls/3)·0.12 + min(1, dom/2)·0.20
+ min(1, excl/5)·0.05 + min(1, upper·2)·0.08 + min(1, html·10)·0.06
+ 0.15·[mismatch] + 0.12·[sender suspicious] + 0.10·[reply-to differs]
+ min(1, urgency/3)·0.10 + min(1, spelling)·0.05 − min(1, trust/3)·0.08. -/
theorem c1_score_formula (f : EmailFeatures) :
    mlScore f = max 0 (min 1 (specScoreFormula f)) := by
  unfold mlScore mlScoreRaw specScoreFormula
  norm_num

/-- C2: for every analysis, the scalar score lies in [0, 1], the confidence
equals |score − 0.5| × 2 and lies in [0, 1], and the verdict is "phishing"
exactly when the score is at least 0.5 and "legitimate" otherwise. -/
theorem c2_verdict_confidence (content : EmailContent) :
    (0 ≤ analysis_score content ∧ analysis_score content ≤ 1)
      ∧ (run_analysis content).confidence = |analysis_score content - 1 / 2| * 2
      ∧ (0 ≤ (run_analysis content).confidence ∧ (run_analysis content).confidence ≤ 1)
      ∧ ((run_analysis content).verdict = "phishing" ↔ 1 / 2 ≤ analysis_score content)
      ∧ ((run_analysis content).verdict = "legitimate" ↔
          analysis_score content < 1 / 2) := by
  have hs0 : 0 ≤ analysis_score content := le_max_left 0 _
  have hs1 : analysis_score content ≤ 1 := by
    unfold analysis_score mlScore
    exact max_le (by norm_num) (min_le_left 1 _)
  have hc : (run_analysis content).confidence = |analysis_score content - 1 / 2| * 2 := rfl
  have hv : (run_analysis content).verdict =
      if 1 / 2 ≤ analysis_score content then "phishing" else "legitimate" := rfl
  have habs : |analysis_score content - 1 / 2| ≤ 1 / 2 :=
    abs_le.2 ⟨by linarith, by linarith⟩
  refine ⟨⟨hs0, hs1⟩, hc, ⟨?_, ?_⟩, ?_, ?_⟩
  · rw [hc]
    positivity
  · rw [hc]
    linarith
  · rw [hv]
    by_cases hge : 1 / 2 ≤ analysis_score content
    · rw [if_pos hge]
      exact ⟨fun _ => hge, fun _ => rfl⟩
    · rw [if_neg hge]
      constructor
      · intro h2
        exact absurd h2 (by decide)
      · intro h2
        exact absurd h2 hge
  · rw [hv]
    by_cases hge : 1 / 2 ≤ analysis_score content
    · rw [if_pos hge]
      constructor
      · intro h2
        exact absurd h2 (by decide)
      · intro h2
        exact absurd hge (not_le.2 h2)
    · rw [if_neg hge]
      exact ⟨fun _ => not_le.1 hge, fun _ => rfl⟩

/-- C7: the reply-to-divergence feature is true exactly when both sender and
reply-to are present with unequal extracted domains, and flipping only this
feature moves the pre-clamp score by exactly 0.10. -/
theorem c7_reply_to_divergence :
    (∀ (content : EmailContent) (body subject : List Char),
        (extract_features content body subject).reply_to_different = true ↔
          ∃ r fr, content.reply_to = some r ∧ content.from_address = some fr ∧
            extract_domain r ≠ extract_domain fr)
      ∧ ∀ f : EmailFeatures,
          mlScoreRaw { f with reply_to_different := true }
            = mlScoreRaw { f with reply_to_different := false } + 1 / 10 := by
  constructor
  · intro content body subject
    show (match content.reply_to, content.from_address with
      | some r, some fr => decide (extract_domain r ≠ extract_domain fr)
      | _, _ => false) = true ↔ _
    rcases content.reply_to with _ | r <;> rcases content.from_address with _ | fr
    · simp
    · simp
    · simp
    · simp
  · intro f
    unfold mlScoreRaw
    norm_num
    ring

/-- C8: the scoring engine always emits exactly six insight records, with
the fixed names in order, carrying the raw feature values, each advisory
weight in [0, 1]; the scalar score is a function of the features alone and
is not built from the insight weights. -/
theorem c8_insights (f : EmailFeatures) :
    (insightsOf f).length = 6
      ∧ (insightsOf f).map AnalysisInsight.name =
          ["suspicious_keywords", "url_count", "suspicious_domains", "link_mismatch",
           "from_domain_suspicious", "trust_signals"]
      ∧ (insightsOf f).map AnalysisInsight.value =
          [f.suspicious_keyword_count, f.url_count, f.suspicious_domain_count,
           if f.link_text_mismatch then 1 else 0, if f.from_domain_suspicious then 1 else 0,
           f.trust_keyword_count]
      ∧ (∀ i ∈ insightsOf f, 0 ≤ i.weight ∧ i.weight ≤ 1)
      ∧ (ml_like_score f).1 = mlScore f := by
  refine ⟨rfl, rfl, rfl, ?_, rfl⟩
  intro i hi
  unfold insightsOf at hi
  simp only [List.mem_cons, List.not_mem_nil, or_false] at hi
  rcases hi with hi | hi | hi | hi | hi | hi <;> subst hi <;> constructor
  · exact le_min (by norm_num) (by positivity)
  · exact min_le_left 1 _
  · exact le_min (by norm_num) (by positivity)
  · exact min_le_left 1 _
  · exact le_min (by norm_num) (by positivity)
  · exact min_le_left 1 _
  · show (0 : ℚ) ≤ if f.link_text_mismatch then 15 / 100 else 0
    split_ifs <;> norm_num
  · show (if f.link_text_mismatch then (15 : ℚ) / 100 else 0) ≤ 1
    split_ifs <;> norm_num
  · show (0 : ℚ) ≤ if f.from_domain_suspicious then 12 / 100 else 0
    split_ifs <;> norm_num
  · show (if f.from_domain_suspicious then (12 : ℚ) / 100 else 0) ≤ 1
    split_ifs <;> norm_num
  · exact le_min (by norm_num) (by positivity)
  · exact min_le_left 1 _

theorem countTagsGo_le_fuel (fuel : Nat) : ∀ l : List Char, countTagsGo fuel l ≤ fuel := by
  induction fuel with
  | zero => intro l; rw [countTagsGo]
  | succ n ih =>
    intro l
    rcases l with _ | ⟨c, rest⟩
    · rw [countTagsGo]; omega
    · rw [countTagsGo]
      split_ifs
      · have := ih rest; omega
      · have := ih rest; omega
      · have := ih ((rest.dropWhile (fun d => d != '>')).tail); omega
      · have := ih rest; omega

theorem countTags_le_length (l : List Char) : countTags l ≤ l.length :=
  countTagsGo_le_fuel l.length l

/-- C9: every ratio field of the extracted features lies in [0, 1] and every
count field is non-negative. -/
theorem c9_feature_bounds (content : EmailContent) (body subject : List Char) :
    (0 ≤ (extract_features content body subject).uppercase_frac
        ∧ (extract_features content body subject).uppercase_frac ≤ 1)
      ∧ (0 ≤ (extract_features content body subject).html_frac
        ∧ (extract_features content body subject).html_frac ≤ 1)
      ∧ (0 ≤ (extract_features content body subject).spelling_errors_estimate
        ∧ (extract_features content body subject).spelling_errors_estimate ≤ 1)
      ∧ (0 : Int) ≤ (extract_features content body subject).suspicious_keyword_count
      ∧ (0 : Int) ≤ (extract_features content body subject).trust_keyword_count
      ∧ (0 : Int) ≤ (extract_features content body subject).url_count
      ∧ (0 : Int) ≤ (extract_features content body subject).suspicious_domain_count
      ∧ (0 : Int) ≤ (extract_features content body subject).exclamation_count
      ∧ (0 : Int) ≤ (extract_features content body subject).question_count
      ∧ (0 : Int) ≤ (extract_features content body subject).urgency_words
      ∧ (0 : Int) ≤ (extract_features content body subject).body_length
      ∧ (0 : Int) ≤ (extract_features content body subject).subject_length := by
  refine ⟨⟨?_, ?_⟩, ⟨?_, ?_⟩, ⟨?_, ?_⟩, by positivity, by positivity, by positivity,
    by positivity, by positivity, by positivity, by positivity, by positivity, by positivity⟩
  · show (0 : ℚ) ≤ if content.body.take 1000 ≠ [] then
        ((content.body.take 1000).countP Char.isUpper : ℚ) / ((content.body.take 1000).length : ℚ)
      else 0
    split_ifs
    · positivity
    · exact le_refl 0
  · show (if content.body.take 1000 ≠ [] then
        ((content.body.take 1000).countP Char.isUpper : ℚ) / ((content.body.take 1000).length : ℚ)
      else 0) ≤ 1
    split_ifs with hne
    · rw [div_le_one]
      · exact_mod_cast List.countP_le_length Char.isUpper
      · have : 0 < (content.body.take 1000).length := List.length_pos.2 hne
        exact_mod_cast this
    · norm_num
  · show (0 : ℚ) ≤ if 0 < content.body.length then
        (countTags content.body : ℚ) / (max 1 content.body.length : ℚ)
      else 0
    split_ifs
    · positivity
    · exact le_refl 0
  · show (if 0 < content.body.length then
        (countTags content.body : ℚ) / (max 1 content.body.length : ℚ)
      else 0) ≤ 1
    split_ifs with hpos
    · rw [div_le_one]
      · have h1 : countTags content.body ≤ max 1 content.body.length :=
          le_trans (countTags_le_length content.body) le_sup_right
        exact_mod_cast h1
      · have h2 : 0 < max 1 content.body.length := lt_of_lt_of_le Nat.one_pos le_sup_left
        exact_mod_cast h2
    · norm_num
  · show (0 : ℚ) ≤ estimate_spelling_errors body
    unfold estimate_spelling_errors
    have hw : (0 : ℚ) < (max 1 (countWords body) : ℚ) := by
      have h2 : 0 < max 1 (countWords body) := lt_of_lt_of_le Nat.one_pos le_sup_left
      exact_mod_cast h2
    refine le_min (by norm_num) ?_
    positivity
  · show estimate_spelling_errors body ≤ 1
    unfold estimate_spelling_errors
    exact min_le_left 1 _

theorem mem_ite_singleton {α : Type} {s x : α} {c : Prop} [Decidable c]
    (h : s ∈ if c then [x] else ([] : List α)) : s = x := by
  split at h
  · simpa using h
  · simp at h

theorem string_head_append3 (a b c : String) (ch : Char) (h : a.data.head? = some ch) :
    (a ++ b ++ c).data.head? = some ch := by
  rw [String.data_append, String.data_append, List.append_assoc, List.head?_append, h]
  rfl

theorem ne_of_head3 (a b c t : String) (ch : Char)
    (ha : a.data.head? = some ch) (ht : t.data.head? ≠ some ch) : a ++ b ++ c ≠ t := by
  intro he
  exact ht (he ▸ string_head_append3 a b c ch ha)

theorem from_highlight_not_mem {f : EmailFeatures} (h : f.from_domain_suspicious = false) :
    "نطاق المرسل مشبوه." ∉ highlightsOf f := by
  intro hmem
  unfold highlightsOf at hmem
  simp only [List.mem_append] at hmem
  rcases hmem with ((((((h1 | h2) | h3) | h4) | h5) | h6) | h7) | h8
  · exact ne_of_head3 _ _ _ _ 'ت' (by decide) (by decide) (mem_ite_singleton h1).symm
  · exact ne_of_head3 _ _ _ _ 'ت' (by decide) (by decide) (mem_ite_singleton h2).symm
  · exact ne_of_head3 _ _ _ _ 'ا' (by decide) (by decide) (mem_ite_singleton h3).symm
  · exact absurd (mem_ite_singleton h4) (by decide)
  · rw [h] at h5
    simp at h5
  · exact absurd (mem_ite_singleton h6) (by decide)
  · exact absurd (mem_ite_singleton h7) (by decide)
  · exact ne_of_head3 _ _ _ _ 'ت' (by decide) (by decide) (mem_ite_singleton h8).symm

theorem reply_highlight_not_mem {f : EmailFeatures} (h : f.reply_to_different = false) :
    "عنوان الرد يختلف عن عنوان المرسل." ∉ highlightsOf f := by
  intro hmem
  unfold highlightsOf at hmem
  simp only [List.mem_append] at hmem
  rcases hmem with ((((((h1 | h2) | h3) | h4) | h5) | h6) | h7) | h8
  · exact ne_of_head3 _ _ _ _ 'ت' (by decide) (by decide) (mem_ite_singleton h1).symm
  · exact ne_of_head3 _ _ _ _ 'ت' (by decide) (by decide) (mem_ite_singleton h2).symm
  · exact ne_of_head3 _ _ _ _ 'ا' (by decide) (by decide) (mem_ite_singleton h3).symm
  · exact absurd (mem_ite_singleton h4) (by decide)
  · exact absurd (mem_ite_singleton h5) (by decide)
  · rw [h] at h6
    simp at h6
  · exact absurd (mem_ite_singleton h7) (by decide)
  · exact ne_of_head3 _ _ _ _ 'ت' (by decide) (by decide) (mem_ite_singleton h8).symm

/-- C10: on the text path the constructed content never carries a sender or
reply-to address — whatever headers string is supplied — so the
sender-domain and reply-to features are always false, their score
contributions are zero, and their highlight sentences never appear. -/
theorem c10_text_path (body : List Char) (subject headers : Option (List Char)) :
    (analyze_text_content body subject headers).from_address = none
      ∧ (analyze_text_content body subject headers).reply_to = none
      ∧ (analysis_features (analyze_text_content body subject headers)).from_domain_suspicious
          = false
      ∧ (analysis_features (analyze_text_content body subject headers)).reply_to_different
          = false
      ∧ (if (analysis_features (analyze_text_content body subject headers)).from_domain_suspicious
          then (12 / 100 : ℚ) else 0) = 0
      ∧ (if (analysis_features (analyze_text_content body subject headers)).reply_to_different
          then (1 / 10 : ℚ) else 0) = 0
      ∧ "نطاق المرسل مشبوه." ∉ (analyze_text body subject headers).highlights
      ∧ "عنوان الرد يختلف عن عنوان المرسل." ∉ (analyze_text body subject headers).highlights := by
  have hfd : (analysis_features (analyze_text_content body subject headers)).from_domain_suspicious
      = false := by
    show is_domain_suspicious ((none : Option (List Char)).getD []) = false
    decide
  have hrd : (analysis_features (analyze_text_content body subject headers)).reply_to_different
      = false := rfl
  have hhl : (analyze_text body subject headers).highlights
      = highlightsOf (analysis_features (analyze_text_content body subject headers)) := rfl
  refine ⟨rfl, rfl, hfd, hrd, by rw [hfd]; simp, by rw [hrd]; simp, ?_, ?_⟩
  · rw [hhl]
    exact from_highlight_not_mem hfd
  · rw [hhl]
    exact reply_highlight_not_mem hrd

/-- C5: normalize is idempotent; its output contains no ASCII upper-case
letter and no substring of the shape `<[^>]+>`; it is a total function on
strings by construction. -/
theorem c5_normalize_props (x : List Char) :
    normalizeText (normalizeText x) = normalizeText x
      ∧ (∀ c ∈ normalizeText x, ¬(65 ≤ c.toNat ∧ c.toNat ≤ 90))
      ∧ ¬hasTagShape (normalizeText x) :=
  ⟨normalizeText_idem x, mem_normalizeText_not_upper x,
    not_hasTagShape_of_noTag (normalizeText_noTag x)⟩

/-- Character set the claim allows after the scheme: letters, digits and
the punctuation `$ - _ @ . & + ! * ( ) , %` only (written from the claim's
words, for comparison with the source's `urlChar`). -/
def claimedUrlChar (c : Char) : Bool :=
  decide (97 ≤ c.toNat ∧ c.toNat ≤ 122) || decide (65 ≤ c.toNat ∧ c.toNat ≤ 90)
    || decide (48 ≤ c.toNat ∧ c.toNat ≤ 57)
    || c = '$' || c = '-' || c = '_' || c = '@' || c = '.' || c = '&' || c = '+'
    || c = '!' || c = '*' || c = '(' || c = ')' || c = ',' || c = '%'

/-- C6 counterexample: the body `go to http://a/b now` yields the single URL
`http://a/b`, whose post-scheme text contains `/` — a character outside the
claim's restricted set (the source's class is the range `$`..`_`, which
admits `/`, `:`, `?`, `=` and more). -/
theorem c6_counterexample :
    extract_urls "go to http://a/b now".data = ["http://a/b".data]
      ∧ '/' ∈ ("http://a/b".data).drop 7
      ∧ claimedUrlChar '/' = false := by
  refine ⟨by decide, by decide, by decide⟩

theorem urlMatchAt_shape {l m rest : List Char} (h : urlMatchAt l = some (m, rest)) :
    ∃ scheme run, (scheme = "http://".data ∨ scheme = "https://".data)
      ∧ m = scheme ++ run ∧ run ≠ [] ∧ ∀ c ∈ run, urlChar c = true := by
  unfold urlMatchAt at h
  by_cases h1 : ("https://".data).isPrefixOf l
  · rw [if_pos h1] at h
    by_cases h2 : (l.drop 8).takeWhile urlChar = []
    · rw [if_pos h2] at h
      cases h
    · rw [if_neg h2, Option.some.injEq, Prod.mk.injEq] at h
      refine ⟨"https://".data, (l.drop 8).takeWhile urlChar, Or.inr rfl, h.1.symm, h2, ?_⟩
      intro c hc
      exact List.mem_takeWhile_imp hc
  · rw [if_neg h1] at h
    by_cases h3 : ("http://".data).isPrefixOf l
    · rw [if_pos h3] at h
      by_cases h4 : (l.drop 7).takeWhile urlChar = []
      · rw [if_pos h4] at h
        cases h
      · rw [if_neg h4, Option.some.injEq, Prod.mk.injEq] at h
        refine ⟨"http://".data, (l.drop 7).takeWhile urlChar, Or.inl rfl, h.1.symm, h4, ?_⟩
        intro c hc
        exact List.mem_takeWhile_imp hc
    · rw [if_neg h3] at h
      cases h

theorem extractUrlsGo_shape (fuel : Nat) : ∀ l : List Char, ∀ u ∈ extractUrlsGo fuel l,
    ∃ scheme run, (scheme = "http://".data ∨ scheme = "https://".data)
      ∧ u = scheme ++ run ∧ run ≠ [] ∧ ∀ c ∈ run, urlChar c = true := by
  induction fuel with
  | zero =>
    intro l u hu
    simp only [extractUrlsGo] at hu
    cases hu
  | succ n ih =>
    intro l u hu
    rcases l with _ | ⟨c, t⟩
    · simp only [extractUrlsGo] at hu
      cases hu
    · simp only [extractUrlsGo] at hu
      rcases hm : urlMatchAt (c :: t) with _ | ⟨m, rest⟩
      · rw [hm] at hu
        exact ih t u hu
      · rw [hm] at hu
        rcases List.mem_cons.1 hu with h1 | h1
        · subst h1
          exact urlMatchAt_shape hm
        · exact ih rest u h1

theorem isPrefixOf_append_self (a b : List Char) : a.isPrefixOf (a ++ b) = true := by
  induction a with
  | nil => simp [List.isPrefixOf]
  | cons c t ih => simp [List.cons_append, List.isPrefixOf, ih]

/-- Boolean form of the shape of an extracted URL: an `http://` or
`https://` scheme followed by a nonempty run of the source's character
class `urlChar`. -/
def urlShapeB (u : List Char) : Bool :=
  (("http://".data).isPrefixOf u && !(u.drop 7).isEmpty && (u.drop 7).all urlChar)
    || (("https://".data).isPrefixOf u && !(u.drop 8).isEmpty && (u.drop 8).all urlChar)

theorem urlShapeB_of_shape {u : List Char}
    (h : ∃ scheme run, (scheme = "http://".data ∨ scheme = "https://".data)
      ∧ u = scheme ++ run ∧ run ≠ [] ∧ ∀ c ∈ run, urlChar c = true) :
    urlShapeB u = true := by
  obtain ⟨scheme, run, hs, hu, hne, hall⟩ := h
  subst hu
  unfold urlShapeB
  rcases hs with hs | hs <;> subst hs
  · have hd : ("http://".data ++ run).drop 7 = run := by
      rw [show (7 : Nat) = ("http://".data).length from rfl, List.drop_left]
    rw [hd, isPrefixOf_append_self]
    have ha : run.all urlChar = true := List.all_eq_true.2 hall
    simp [ha, hne]
  · have hd : ("https://".data ++ run).drop 8 = run := by
      rw [show (8 : Nat) = ("https://".data).length from rfl, List.drop_left]
    rw [hd, isPrefixOf_append_self]
    have ha : run.all urlChar = true := List.all_eq_true.2 hall
    simp [ha, hne]

/-- C6 amended: every extracted URL is `http://` or `https://` followed by a
nonempty run of the source's actual character class `urlChar` — letters,
digits, the ASCII range `$`..`_` (which admits `/`, `:`, `?`, `=`, `;` and
more), and `! * \ ( ) ,` — not the claim's restricted set; and the
`url_count` feature counts the matches with multiplicity, so duplicates
count separately. -/
theorem c6_url_shape (l : List Char) :
    (∀ u ∈ extract_urls l, urlShapeB u = true)
      ∧ ∀ (content : EmailContent) (body subject : List Char),
          (extract_features content body subject).url_count
            = (extract_urls content.body).length :=
  ⟨fun u hu => urlShapeB_of_shape (extractUrlsGo_shape l.length l u hu), fun _ _ _ => rfl⟩

theorem c6_url_shape_witness : urlShapeB "https://ab.c".data = true :=
  (c6_url_shape "x https://ab.c y".data).1 "https://ab.c".data (by decide)

/-- Codec registry instantiation used for concrete runs: only `utf-8` is
registered (Python's registry is larger, but on the messages below only the
names consulted matter, and `bogus` names no Python codec either). -/
def utf8Only : List Char → Bool := fun c => c == "utf-8".data

/-- Parseable leaf message declaring `charset=bogus` with a nonempty body —
realizable from RFC822 bytes with the header
`Content-Type: text/plain; charset=bogus`, which `email.message_from_bytes`
parses without complaint. -/
def bogusCharsetMsg : Message :=
  Message.mk [] "text/plain".data (some "bogus".data) (MPayload.raw "hello".data)

/-- C3 counterexample: `bogusCharsetMsg` is a successfully parsed message,
yet the claim's "returns a best-effort EmailContent without failing" is
false of it — the body decode `payload.decode("bogus", errors="replace")`
raises `LookupError`, the analyzer has no handler, and no content is
produced. -/
theorem c3_counterexample :
    extract_body utf8Only bogusCharsetMsg = Except.error LookupError.mk
      ∧ decode_eml utf8Only (fun _ => Except.ok bogusCharsetMsg) []
          = Except.error (DecodeError.lookup LookupError.mk) :=
  ⟨rfl, rfl⟩

/-- C3 amended: a total parse failure propagates as the malformed-message
error and no analysis output is produced; a successfully parsed message —
however partial — yields the best-effort content, except that a charset
decode on an unknown declared charset raises `LookupError`, which also
propagates unhandled, so again no content is produced. -/
theorem c3_decode_propagation (known : List Char → Bool)
    (parse : List Nat → Except MalformedMessageError Message) (data : List Nat) :
    (∀ e, parse data = Except.error e →
        decode_eml known parse data = Except.error (DecodeError.malformed e))
      ∧ (∀ m c, parse data = Except.ok m → content_of_message known m = Except.ok c →
          decode_eml known parse data = Except.ok c)
      ∧ (∀ m e, parse data = Except.ok m → content_of_message known m = Except.error e →
          decode_eml known parse data = Except.error (DecodeError.lookup e)) := by
  refine ⟨?_, ?_, ?_⟩
  · intro e he
    unfold decode_eml
    rw [he]
  · intro m c hm hc
    unfold decode_eml
    rw [hm]
    simp [hc]
  · intro m e hm hc
    unfold decode_eml
    rw [hm]
    simp [hc]

/-- Plain leaf message with no declared charset. -/
def plainLeafMsg : Message :=
  Message.mk [] "text/plain".data none (MPayload.raw "hi".data)

theorem c3_decode_propagation_witness :
    decode_eml utf8Only (fun _ => Except.error MalformedMessageError.mk) []
        = Except.error (DecodeError.malformed MalformedMessageError.mk)
      ∧ decode_eml utf8Only (fun _ => Except.ok plainLeafMsg) []
        = Except.ok
            { subject := none
              body := BodyResult.str "hi".data
              raw_headers := some []
              from_address := none
              reply_to := none
              to_addresses := []
              html_body := none }
      ∧ decode_eml utf8Only (fun _ => Except.ok bogusCharsetMsg) []
        = Except.error (DecodeError.lookup LookupError.mk) :=
  ⟨(c3_decode_propagation utf8Only (fun _ => Except.error MalformedMessageError.mk) []).1
      MalformedMessageError.mk rfl,
   (c3_decode_propagation utf8Only (fun _ => Except.ok plainLeafMsg) []).2.1
      plainLeafMsg _ rfl rfl,
   (c3_decode_propagation utf8Only (fun _ => Except.ok bogusCharsetMsg) []).2.2
      bogusCharsetMsg LookupError.mk rfl rfl⟩

/-- Multipart message whose only part is a `text/plain` part with an empty
payload — realizable from RFC822 bytes declaring a multipart with one empty
text part.  No charset decode is consulted on it (the `if payload:` guard
rejects the empty bytes first), so the result is the same for every codec
registry. -/
def demoMultipart : Message :=
  Message.mk [] "multipart/mixed".data none
    (MPayload.parts [Message.mk [] "text/plain".data none (MPayload.raw [])])

/-- C4 counterexample: on `demoMultipart` the claim demands the decoded
payload of the first `text/plain` part found by depth-first search — the
empty string — and in all cases a string; the source instead skips the
empty payload, falls through every branch and returns the sub-message list,
which is not a string. -/
theorem c4_counterexample :
    extract_body utf8Only demoMultipart
        = Except.ok (BodyResult.msgList [Message.mk [] "text/plain".data none (MPayload.raw [])])
      ∧ extract_body utf8Only demoMultipart ≠ Except.ok (BodyResult.str []) := by
  have h : extract_body utf8Only demoMultipart
      = Except.ok (BodyResult.msgList
          [Message.mk [] "text/plain".data none (MPayload.raw [])]) := rfl
  refine ⟨h, ?_⟩
  rw [h]
  intro h2
  cases h2

theorem extract_body_multipart_found {known : List Char → Bool} {m : Message}
    (hm : m.isMultipart = true) {s : List Char}
    (hf : findPlainText known m.walk = some (Except.ok s)) :
    extract_body known m = Except.ok (BodyResult.str s) := by
  unfold extract_body
  rw [hm]
  simp [hf]

theorem extract_body_multipart_err {known : List Char → Bool} {m : Message}
    (hm : m.isMultipart = true) {e : LookupError}
    (hf : findPlainText known m.walk = some (Except.error e)) :
    extract_body known m = Except.error e := by
  unfold extract_body
  rw [hm]
  simp [hf]

theorem extract_body_leaf (known : List Char → Bool)
    (hs : List (List Char × List Char)) (ct : List Char) (cs : Option (List Char))
    (s : List Char) (hk : known (cs.getD "utf-8".data) = true) :
    extract_body known (Message.mk hs ct cs (MPayload.raw s))
      = Except.ok (BodyResult.str s) := by
  show (if s ≠ [] then
      match decodeBytes known (cs.getD "utf-8".data) s with
      | Except.error e => Except.error e
      | Except.ok t => Except.ok (BodyResult.str t)
    else Except.ok (rawPayload (Message.mk hs ct cs (MPayload.raw s))))
    = Except.ok (BodyResult.str s)
  split_ifs with h
  · unfold decodeBytes
    rw [hk]
    simp
  · push_neg at h
    subst h
    rfl

theorem extract_body_leaf_err (known : List Char → Bool)
    (hs : List (List Char × List Char)) (ct : List Char) (cs : Option (List Char))
    (s : List Char) (hne : s ≠ []) (hk : known (cs.getD "utf-8".data) = false) :
    extract_body known (Message.mk hs ct cs (MPayload.raw s))
      = Except.error LookupError.mk := by
  show (if s ≠ [] then
      match decodeBytes known (cs.getD "utf-8".data) s with
      | Except.error e => Except.error e
      | Except.ok t => Except.ok (BodyResult.str t)
    else Except.ok (rawPayload (Message.mk hs ct cs (MPayload.raw s))))
    = Except.error LookupError.mk
  rw [if_pos hne]
  unfold decodeBytes
  rw [hk]
  simp

/-- C4 amended: for a multipart message the extracted body is the decoded
payload of the first `text/plain` part of the depth-first walk whose
payload is nonempty, when that part's declared charset (default utf-8) is a
known codec (so a message with both `text/plain` and `text/html` parts
yields the plain payload) — an unknown charset there raises `LookupError`
instead; a non-multipart message whose declared charset is known yields its
payload string, the empty string when it has no payload, and raises
`LookupError` when the payload is nonempty and the charset unknown; and a
multipart none of whose candidate payloads is nonempty returns the
sub-message list itself, which is not a string. -/
theorem c4_extract_body :
    (∀ (known : List Char → Bool) (m : Message) (s : List Char), m.isMultipart = true →
        findPlainText known m.walk = some (Except.ok s) →
        extract_body known m = Except.ok (BodyResult.str s))
      ∧ (∀ (known : List Char → Bool) (m : Message) (e : LookupError), m.isMultipart = true →
          findPlainText known m.walk = some (Except.error e) →
          extract_body known m = Except.error e)
      ∧ (∀ (known : List Char → Bool) (hs : List (List Char × List Char)) (ct : List Char)
          (cs : Option (List Char)) (s : List Char), known (cs.getD "utf-8".data) = true →
          extract_body known (Message.mk hs ct cs (MPayload.raw s))
            = Except.ok (BodyResult.str s))
      ∧ ∀ (known : List Char → Bool) (hs : List (List Char × List Char)) (ct : List Char)
          (cs : Option (List Char)) (s : List Char), s ≠ [] →
          known (cs.getD "utf-8".data) = false →
          extract_body known (Message.mk hs ct cs (MPayload.raw s))
            = Except.error LookupError.mk :=
  ⟨fun _ _ _ hm hf => extract_body_multipart_found hm hf,
   fun _ _ _ hm hf => extract_body_multipart_err hm hf,
   fun known hs ct cs s hk => extract_body_leaf known hs ct cs s hk,
   fun known hs ct cs s hne hk => extract_body_leaf_err known hs ct cs s hne hk⟩

/-- Multipart message with a nonempty `text/plain` part and a `text/html`
part, the shape of the spec's Scenario C. -/
def demoMultipartPlain : Message :=
  Message.mk [] "multipart/alternative".data none
    (MPayload.parts [Message.mk [] "text/plain".data (some "utf-8".data) (MPayload.raw "hi".data),
      Message.mk [] "text/html".data (some "utf-8".data) (MPayload.raw "<p>hi</p>".data)])

/-- Multipart message whose first nonempty `text/plain` part declares an
unknown charset. -/
def demoMultipartBogus : Message :=
  Message.mk [] "multipart/mixed".data none
    (MPayload.parts [Message.mk [] "text/plain".data (some "bogus".data) (MPayload.raw "hi".data)])

theorem c4_extract_body_witness :
    demoMultipartPlain.isMultipart = true
      ∧ findPlainText utf8Only demoMultipartPlain.walk = some (Except.ok "hi".data)
      ∧ extract_body utf8Only demoMultipartPlain = Except.ok (BodyResult.str "hi".data)
      ∧ extract_body utf8Only demoMultipartBogus = Except.error LookupError.mk
      ∧ extract_body utf8Only plainLeafMsg = Except.ok (BodyResult.str "hi".data)
      ∧ extract_body utf8Only bogusCharsetMsg = Except.error LookupError.mk :=
  ⟨rfl, rfl,
   c4_extract_body.1 utf8Only demoMultipartPlain "hi".data rfl rfl,
   c4_extract_body.2.1 utf8Only demoMultipartBogus LookupError.mk rfl rfl,
   c4_extract_body.2.2.1 utf8Only [] "text/plain".data none "hi".data rfl,
   c4_extract_body.2.2.2 utf8Only [] "text/plain".data (some "bogus".data) "hello".data
      (by decide) rfl⟩

theorem c5_normalize_props_witness :
    normalizeText (normalizeText "Hi".data) = normalizeText "Hi".data
      ∧ ¬(65 ≤ ('h' : Char).toNat ∧ ('h' : Char).toNat ≤ 90) := by
  have hn : normalizeText "Hi".data = "hi".data := by
    unfold normalizeText stripHtml
    rw [stripAux_id (by decide), collapseAux_id (by decide), pyStrip_id (by decide)]
    decide
  obtain ⟨h1, h2, h3⟩ := c5_normalize_props "Hi".data
  exact ⟨h1, h2 'h' (by rw [hn]; decide)⟩

/-- All-zero feature record used as a concrete instantiation point. -/
def zeroFeatures : EmailFeatures :=
  ⟨0, 0, 0, 0, 0, 0, 0, 0, 0, false, 0, false, false, false, 0, 0⟩

/-- Content with diverging sender and reply-to domains (Scenario D shape). -/
def divergingContent : EmailContent :=
  { subject := none
    body := []
    raw_headers := none
    from_address := some "boss@company.com".data
    reply_to := some "boss@totally-different.ru".data
    to_addresses := none
    html_body := none }

theorem c7_reply_to_divergence_witness :
    (extract_features divergingContent [] []).reply_to_different = true
      ∧ mlScoreRaw { zeroFeatures with reply_to_different := true }
          = mlScoreRaw { zeroFeatures with reply_to_different := false } + 1 / 10 :=
  ⟨(c7_reply_to_divergence.1 divergingContent [] []).mpr
      ⟨"boss@totally-different.ru".data, "boss@company.com".data, rfl, rfl, by decide⟩,
   c7_reply_to_divergence.2 zeroFeatures⟩

theorem c8_insights_witness :
    0 ≤ (AnalysisInsight.mk "suspicious_keywords" zeroFeatures.suspicious_keyword_count
          (min 1 ((zeroFeatures.suspicious_keyword_count : ℚ) * (2 / 10)))
          "عدد الكلمات المشبوهة المكتشفة").weight
      ∧ (AnalysisInsight.mk "suspicious_keywords" zeroFeatures.suspicious_keyword_count
          (min 1 ((zeroFeatures.suspicious_keyword_count : ℚ) * (2 / 10)))
          "عدد الكلمات المشبوهة المكتشفة").weight ≤ 1 :=
  (c8_insights zeroFeatures).2.2.2.1 _ (List.mem_cons_self _ _)

theorem c10_text_path_witness :
    (analyze_text_content "x".data none none).from_address = none
      ∧ (analyze_text_content "x".data none none).reply_to = none
      ∧ (analysis_features (analyze_text_content "x".data none none)).from_domain_suspicious
          = false
      ∧ (analysis_features (analyze_text_content "x".data none none)).reply_to_different
          = false
      ∧ (if (analysis_features (analyze_text_content "x".data none none)).from_domain_suspicious
          then (12 / 100 : ℚ) else 0) = 0
      ∧ (if (analysis_features (analyze_text_content "x".data none none)).reply_to_different
          then (1 / 10 : ℚ) else 0) = 0
      ∧ "نطاق المرسل مشبوه." ∉ (analyze_text "x".data none none).highlights
      ∧ "عنوان الرد يختلف عن عنوان المرسل." ∉ (analyze_text "x".data none none).highlights :=
  c10_text_path "x".data none none
